import Mathlib

/-
Verification of the weekly time-allocation core of the life-planner
repository: the capacity evaluator (src/capacity.ts), the time arithmetic
and the weekly allocator (runWeeklyScheduler in src/scheduler part of
store.ts), and the pure store reducer (applyUpdate in src/store.ts).

Modelling conventions, chosen to mirror the JavaScript source:
- JS numbers are modelled by the integer fragment `JsNum := Option Int`,
  where `none` plays the role of NaN.  All arithmetic the core performs is
  integer-valued; `Math.ceil` of the two buffer products is modelled by
  exact rational ceiling (IEEE rounding noise of the double products is
  abstracted away).  NaN propagation (NaN + x = NaN, NaN < x = false,
  Math.min(NaN, x) = NaN) is modelled faithfully.
- Calendar dates: the source passes ISO `YYYY-MM-DD` strings around and
  only ever compares them for equality and lexicographic order, and steps
  them by whole days.  Lexicographic order on such strings agrees with
  chronological order, so dates are modelled as day numbers (Nat); the
  7-day window [weekStart, weekStart+6] models the dayDates array.
- Clock times stay honest strings: timeToMinutes / minutesToTime are
  modelled character-for-character, including the behaviour on malformed
  input (split + Number, i.e. NaN results) and on out-of-range minute
  counts (floor/truncated division exactly as Math.floor and the JS
  remainder operator).
- Number(s) is modelled on the fragment of strings that actually occurs
  here: decimal digit strings with an optional leading minus sign, and
  the empty string (which JS converts to 0).  Other spellings (hex,
  exponents, whitespace, decimals) never arise in this development.
- Arrays are lists; the in-place .push is appending at the tail, the
  in-place .sort (stable per ES2019) is a stable insertion sort with the
  same comparator, and the Set of scheduled task ids is a list queried
  only through membership.
- The id generator blockId() (wall clock + Math.random) is modelled by an
  explicit stream ids : Nat -> String consumed in allocation order.
-/

namespace Planner

/-- JS number (integer fragment); `none` is NaN. -/
abbrev JsNum := Option Int

def jadd : JsNum → JsNum → JsNum
  | some a, some b => some (a + b)
  | _, _ => none

def jsub : JsNum → JsNum → JsNum
  | some a, some b => some (a - b)
  | _, _ => none

def jmul : JsNum → JsNum → JsNum
  | some a, some b => some (a * b)
  | _, _ => none

/-- Math.min: NaN if either argument is NaN. -/
def jmin : JsNum → JsNum → JsNum
  | some a, some b => some (min a b)
  | _, _ => none

/-- JS `<`: any comparison with NaN is false. -/
def jltB : JsNum → JsNum → Bool
  | some a, some b => decide (a < b)
  | _, _ => false

/-- JS `>`: any comparison with NaN is false. -/
def jgtB : JsNum → JsNum → Bool
  | some a, some b => decide (b < a)
  | _, _ => false

/-- JS `>=`: any comparison with NaN is false. -/
def jgeB : JsNum → JsNum → Bool
  | some a, some b => decide (b ≤ a)
  | _, _ => false

/-- Value of a nonempty decimal digit string, scanned left to right; NaN
(none) on the empty string or any non-digit character. -/
def digitsToNatAux : Nat → List Char → Option Nat
  | acc, [] => some acc
  | acc, c :: cs =>
    if c.isDigit then digitsToNatAux (acc * 10 + (c.toNat - 48)) cs else none

def digitsToNat : List Char → Option Nat
  | [] => none
  | c :: cs => digitsToNatAux 0 (c :: cs)

/-- Number(s) on the integer fragment: empty string is 0, optional leading
minus followed by digits, otherwise NaN. -/
def jsNumberOfChars : List Char → JsNum
  | [] => some 0
  | c :: cs =>
    if c == '-' then (digitsToNat cs).map (fun n => (-(n : Int)))
    else (digitsToNat (c :: cs)).map (fun n => ((n : Int)))

def jsNumberOfString (s : String) : JsNum := jsNumberOfChars s.data

/-- JS String.prototype.split with a single-character separator: every
occurrence splits, empty segments are kept. -/
def splitCharAux (sep : Char) : List Char → List Char → List (List Char)
  | [], cur => [cur.reverse]
  | c :: cs, cur =>
    if c == sep then cur.reverse :: splitCharAux sep cs []
    else splitCharAux sep cs (c :: cur)

def jsSplit (sep : Char) (s : String) : List String :=
  (splitCharAux sep s.data []).map String.mk

/-- store.ts: const [h, m] = t.split(':').map(Number); return h * 60 + m.
A missing second component leaves m undefined, so the result is NaN. -/
def timeToMinutes (t : String) : JsNum :=
  match (jsSplit ':' t).map jsNumberOfString with
  | h :: m :: _ => jadd (jmul h (some 60)) m
  | _ => none

/-- String(n).padStart(2, the digit zero). -/
def padStart2 (s : String) : String :=
  if s.length ≥ 2 then s else String.mk (List.replicate (2 - s.length) '0') ++ s

/-- Decimal digits of n, most significant first; the fuel argument only
bounds the recursion depth and is never exhausted when fuel exceeds n. -/
def natDecimalAux : Nat → Nat → List Char
  | 0, _ => []
  | fuel + 1, n =>
    if n < 10 then [Char.ofNat (48 + n)]
    else natDecimalAux fuel (n / 10) ++ [Char.ofNat (48 + n % 10)]

/-- Decimal rendering of a natural number. -/
def natDecimal (n : Nat) : String := String.mk (natDecimalAux (n + 1) n)

/-- JS String(n) for an integer value: decimal digits with a leading minus
sign on negatives. -/
def intDecimal (n : Int) : String :=
  if n < 0 then "-" ++ natDecimal n.natAbs else natDecimal n.toNat

/-- store.ts minutesToTime: Math.floor(total / 60) and total % 60 with JS
semantics (floor division, truncated remainder), zero-padded.  On NaN input
both String() renderings are the three-letter string NaN. -/
def minutesToTime (total : JsNum) : String :=
  match total with
  | none => "NaN:NaN"
  | some n => padStart2 (intDecimal (Int.fdiv n 60)) ++ ":" ++ padStart2 (intDecimal (Int.tmod n 60))

/-! ## Data model (types.ts), restricted to the fields the core reads -/

inductive EnergyType
  | Deep
  | Light
  | Admin
deriving DecidableEq, Repr

inductive TaskType
  | GoalTask
  | DeadlineTask
  | FixedEvent
  | LocationTask
  | MicroTask
deriving DecidableEq, Repr

inductive BlockStatus
  | pending
  | in_progress
  | completed
  | skipped
deriving DecidableEq, Repr

structure Goal where
  id : String
  name : String
  weeklyQuotaHours : Option Nat
  weeklyQuotaSessions : Option Nat
  priorityTier : Nat
  active : Bool
deriving DecidableEq, Repr

structure Task where
  id : String
  title : String
  taskType : TaskType
  goalId : Option String
  estimatedMinutes : Nat
  energyType : EnergyType
  deadline : Option Nat
  dueTime : Option String
  completed : Bool
deriving DecidableEq, Repr

structure CapacitySettings where
  weeklyDiscretionaryHours : Nat
  sleepStart : String
  sleepEnd : String
  workStart : String
  workEnd : String
  workDays : Nat
  maxDeepBlocksPerDay : Nat
  maxPlannedHoursPerDay : Nat
  bufferPercent : Nat
deriving DecidableEq, Repr

structure ScheduledBlock where
  id : String
  taskId : String
  date : Nat
  startTime : String
  endTime : String
  bufferMinutes : Nat
  energyType : EnergyType
  status : BlockStatus
  skipReason : Option String
  sortOrder : Nat
deriving DecidableEq, Repr

/-- types.ts DEFAULT_CAPACITY. -/
def DEFAULT_CAPACITY : CapacitySettings where
  weeklyDiscretionaryHours := 25
  sleepStart := "23:00"
  sleepEnd := "07:00"
  workStart := "09:00"
  workEnd := "17:00"
  workDays := 5
  maxDeepBlocksPerDay := 3
  maxPlannedHoursPerDay := 6
  bufferPercent := 25

/-- AppState restricted to the fields the scheduling core and the store
reducer cases under verification touch. -/
structure AppState where
  goals : List Goal
  tasks : List Task
  scheduledBlocks : List ScheduledBlock
  capacity : CapacitySettings
deriving DecidableEq, Repr

/-! ## Capacity evaluator (capacity.ts) -/

/-- JS truthiness of a pending/in_progress status test plus date match,
as in capacity.ts getPlannedMinutesForDay. -/
def isCountedOn (date : Nat) (b : ScheduledBlock) : Bool :=
  b.date == date && (b.status == BlockStatus.pending || b.status == BlockStatus.in_progress)

/-- capacity.ts getPlannedMinutesForDay.  The source inlines the very same
split/Number computation that store.ts names timeToMinutes, so the parsing
is shared here.  The JS default argument includeBuffer = true is passed
explicitly by the model at every call site that omits it. -/
def getPlannedMinutesForDay (blocks : List ScheduledBlock) (date : Nat) (includeBuffer : Bool) : JsNum :=
  (blocks.filter (isCountedOn date)).foldl
    (fun sum b =>
      jadd (jadd sum (jsub (timeToMinutes b.endTime) (timeToMinutes b.startTime)))
        (some (if includeBuffer then (b.bufferMinutes : Int) else 0)))
    (some 0)

/-- capacity.ts getDeepBlockCountForDay. -/
def getDeepBlockCountForDay (blocks : List ScheduledBlock) (date : Nat) : Nat :=
  (blocks.filter (fun b =>
    b.date == date && b.energyType == EnergyType.Deep &&
      (b.status == BlockStatus.pending || b.status == BlockStatus.in_progress))).length

/-- Structured result of wouldExceedDailyLimits; the source leaves reason
undefined in the ok case. -/
structure LimitCheck where
  ok : Bool
  reason : Option String
deriving DecidableEq, Repr

/-- Reason string of the daily-time check. -/
def timeLimitReason (cap : CapacitySettings) : String :=
  "Daily planned time would exceed " ++ toString cap.maxPlannedHoursPerDay ++ "h. Remove something first."

/-- Reason string of the deep-block check. -/
def deepLimitReason (cap : CapacitySettings) : String :=
  "Max " ++ toString cap.maxDeepBlocksPerDay ++ " deep-work blocks per day."

/-- capacity.ts wouldExceedDailyLimits. -/
def wouldExceedDailyLimits (capacity : CapacitySettings) (blocks : List ScheduledBlock)
    (date : Nat) (newBlockMinutes : Int) (energyType : EnergyType) : LimitCheck :=
  let plannedMins := getPlannedMinutesForDay blocks date true
  let maxMins : Int := capacity.maxPlannedHoursPerDay * 60
  if jgtB (jadd plannedMins (some newBlockMinutes)) (some maxMins) then
    { ok := false, reason := some (timeLimitReason capacity) }
  else if energyType == EnergyType.Deep then
    if getDeepBlockCountForDay blocks date ≥ capacity.maxDeepBlocksPerDay then
      { ok := false, reason := some (deepLimitReason capacity) }
    else
      { ok := true, reason := none }
  else
    { ok := true, reason := none }

/-- capacity.ts getWeeklyPlannedMinutes: sum of planned minutes over the
seven window dates. -/
def getWeeklyPlannedMinutes (blocks : List ScheduledBlock) (weekStart : Nat) : JsNum :=
  (List.range 7).foldl
    (fun total i => jadd total (getPlannedMinutesForDay blocks (weekStart + i) true))
    (some 0)

/-! ## Weekly allocator (runWeeklyScheduler) -/

/-- Ceiling of a / b on naturals. -/
def ceilDiv (a b : Nat) : Nat := (a + b - 1) / b

/-- Math.ceil(estimatedMinutes * BUFFER_MULTIPLIER) with BUFFER_MULTIPLIER
= 1.25, i.e. the ceiling of 5e/4. -/
def bufferedMins (e : Nat) : Nat := ceilDiv (5 * e) 4

/-- Math.ceil(estimatedMinutes * (bufferPercent / 100)). -/
def bufferMins (cap : CapacitySettings) (e : Nat) : Nat :=
  ceilDiv (e * cap.bufferPercent) 100

/-- Span in minutes of a non-micro block of the given task: the allocator
always emits endMins = startMins + bufferedMins + bufferMins. -/
def taskSpan (cap : CapacitySettings) (t : Task) : Nat :=
  bufferedMins t.estimatedMinutes + bufferMins cap t.estimatedMinutes

/-- JS truthiness of the optional dueTime string (empty string is falsy). -/
def dueTimeTruthy (t : Task) : Bool :=
  match t.dueTime with
  | none => false
  | some s => !s.isEmpty

/-- Filter of pass 1: uncompleted FixedEvents, and DeadlineTasks with a
truthy dueTime. -/
def isFixedTask (t : Task) : Bool :=
  !t.completed && (t.taskType == TaskType.FixedEvent ||
    (t.taskType == TaskType.DeadlineTask && dueTimeTruthy t))

/-- Filter of pass 2: uncompleted DeadlineTasks with a truthy deadline, no
truthy dueTime, and not among the pass-1 tasks. -/
def isPass2Task (fixedTasks : List Task) (t : Task) : Bool :=
  !t.completed && t.taskType == TaskType.DeadlineTask && t.deadline.isSome &&
    !dueTimeTruthy t && !(fixedTasks.any (fun f => f.id == t.id))

/-- Filter of pass 4 candidates: uncompleted MicroTasks estimated at most
15 minutes. -/
def isMicroTask (t : Task) : Bool :=
  !t.completed && t.taskType == TaskType.MicroTask && t.estimatedMinutes ≤ 15

/-- Loop body of pass 1 (fixed placements, sortOrder 1): place the task
unconditionally at deadline date (else first window day) and dueTime (else
workStart).  The accumulator is the growing block array plus the number of
ids consumed. -/
def pass1Step (capacity : CapacitySettings) (dayDates : List Nat) (ids : Nat → String)
    (acc : List ScheduledBlock × Nat) (task : Task) : List ScheduledBlock × Nat :=
  let date := task.deadline.getD dayDates.headI
  if !(dayDates.contains date) then acc
  else
    let mins := bufferedMins task.estimatedMinutes
    let buffer := bufferMins capacity task.estimatedMinutes
    let start := task.dueTime.getD capacity.workStart
    let startMins := timeToMinutes start
    let endMins := jadd startMins (some ((mins : Int) + (buffer : Int)))
    (acc.1 ++ [{ id := ids acc.2, taskId := task.id, date := date, startTime := start,
                 endTime := minutesToTime endMins, bufferMinutes := buffer,
                 energyType := task.energyType, status := BlockStatus.pending,
                 skipReason := none, sortOrder := 1 }],
     acc.2 + 1)

/-- Loop body of pass 2 (deadline tasks without fixed time, sortOrder 2).
The none branch of the deadline is unreachable from runWeeklyScheduler
because the pass-2 filter requires a deadline. -/
def pass2Step (capacity : CapacitySettings) (dayDates : List Nat)
    (workStartMins workEndMins : JsNum) (ids : Nat → String)
    (acc : List ScheduledBlock × Nat) (task : Task) : List ScheduledBlock × Nat :=
  match task.deadline with
  | none => acc
  | some date =>
    if !(dayDates.contains date) then acc
    else
      let totalMins := bufferedMins task.estimatedMinutes
      let buffer := bufferMins capacity task.estimatedMinutes
      let check := wouldExceedDailyLimits capacity acc.1 date ((totalMins : Int) + (buffer : Int)) task.energyType
      if !check.ok then acc
      else
        let existingMins := getPlannedMinutesForDay acc.1 date true
        let startMins := jadd workStartMins
          (jmin existingMins (jsub (jsub workEndMins workStartMins) (some ((totalMins : Int) + (buffer : Int)))))
        (acc.1 ++ [{ id := ids acc.2, taskId := task.id, date := date,
                     startTime := minutesToTime startMins,
                     endTime := minutesToTime (jadd startMins (some ((totalMins : Int) + (buffer : Int)))),
                     bufferMinutes := buffer, energyType := task.energyType,
                     status := BlockStatus.pending, skipReason := none, sortOrder := 2 }],
         acc.2 + 1)

/-- Pass-3 accumulator: blocks, the scheduledTaskIds set, sessionsPlaced
for the current goal, and the id counter. -/
abbrev Pass3Acc := List ScheduledBlock × List String × Nat × Nat

/-- Inner loop body of pass 3 over the window dates for one goal.  The
source breaks out of the date loop once the quota is met; since
sessionsPlaced never decreases, guarding every iteration is equivalent. -/
def pass3DateStep (capacity : CapacitySettings) (goalTasks : List Task) (quotaSessions : Nat)
    (workStartMins workEndMins : JsNum) (ids : Nat → String)
    (acc : Pass3Acc) (date : Nat) : Pass3Acc :=
  let blocks := acc.1
  let scheduledIds := acc.2.1
  let sessionsPlaced := acc.2.2.1
  let k := acc.2.2.2
  if sessionsPlaced ≥ quotaSessions then acc
  else
    let deepCount := getDeepBlockCountForDay blocks date
    let plannedMins := getPlannedMinutesForDay blocks date true
    let maxNewMins := jsub (some ((capacity.maxPlannedHoursPerDay : Int) * 60)) plannedMins
    if jltB maxNewMins (some 30) then acc
    else
      let task? :=
        ((goalTasks.find? (fun t => t.energyType == EnergyType.Deep &&
            decide (deepCount < capacity.maxDeepBlocksPerDay))).orElse
          (fun _ => goalTasks.find? (fun _ => decide (deepCount < capacity.maxDeepBlocksPerDay)))).orElse
          (fun _ => goalTasks.head?)
      match task? with
      | none => acc
      | some task =>
        let totalMins := bufferedMins task.estimatedMinutes
        let buffer := bufferMins capacity task.estimatedMinutes
        let check := wouldExceedDailyLimits capacity blocks date ((totalMins : Int) + (buffer : Int)) task.energyType
        if !check.ok then acc
        else
          let existingMins := getPlannedMinutesForDay blocks date true
          let startMins := jadd workStartMins
            (jmin existingMins (jsub (jsub workEndMins workStartMins) (some ((totalMins : Int) + (buffer : Int)))))
          (blocks ++ [{ id := ids k, taskId := task.id, date := date,
                        startTime := minutesToTime startMins,
                        endTime := minutesToTime (jadd startMins (some ((totalMins : Int) + (buffer : Int)))),
                        bufferMinutes := buffer, energyType := task.energyType,
                        status := BlockStatus.pending, skipReason := none, sortOrder := 3 }],
           task.id :: scheduledIds, sessionsPlaced + 1, k + 1)

/-- types.ts conversion of a goal quota to a weekly session count:
weeklyQuotaSessions ?? (weeklyQuotaHours ? Math.ceil(weeklyQuotaHours) : 0),
where the hours (held as a natural here) are their own ceiling and the JS
truthiness test makes a zero-hour quota give zero sessions. -/
def goalQuotaSessions (g : Goal) : Nat :=
  match g.weeklyQuotaSessions with
  | some n => n
  | none =>
    match g.weeklyQuotaHours with
    | some h => h
    | none => 0

/-- Outer loop body of pass 3 over the active goals in ascending tier
order. -/
def pass3GoalStep (capacity : CapacitySettings) (tasks : List Task) (dayDates : List Nat)
    (workStartMins workEndMins : JsNum) (ids : Nat → String)
    (acc : List ScheduledBlock × List String × Nat) (goal : Goal) :
    List ScheduledBlock × List String × Nat :=
  let quotaSessions := goalQuotaSessions goal
  if quotaSessions ≤ 0 then acc
  else
    let goalTasks := tasks.filter (fun t =>
      !t.completed && t.taskType == TaskType.GoalTask && t.goalId == some goal.id &&
        !(acc.2.1.contains t.id))
    let r := dayDates.foldl
      (pass3DateStep capacity goalTasks quotaSessions workStartMins workEndMins ids)
      (acc.1, acc.2.1, 0, acc.2.2)
    (r.1, r.2.1, r.2.2.2)

/-- Loop body of pass 4 (one micro task per day, sortOrder 4). -/
def pass4Step (capacity : CapacitySettings) (microTasks : List Task)
    (workStartMins workEndMins : JsNum) (ids : Nat → String)
    (acc : List ScheduledBlock × Nat) (date : Nat) : List ScheduledBlock × Nat :=
  let planned := getPlannedMinutesForDay acc.1 date true
  if jgeB planned (some ((capacity.maxPlannedHoursPerDay : Int) * 60 - 20)) then acc
  else
    match microTasks.find? (fun t => !(acc.1.any (fun b => b.taskId == t.id && b.date == date))) with
    | none => acc
    | some task =>
      let totalMins : Nat := 15 + 5
      let existingMins := getPlannedMinutesForDay acc.1 date true
      let startMins := jadd workStartMins
        (jmin existingMins (jsub (jsub workEndMins workStartMins) (some (totalMins : Int))))
      (acc.1 ++ [{ id := ids acc.2, taskId := task.id, date := date,
                   startTime := minutesToTime startMins,
                   endTime := minutesToTime (jadd startMins (some (totalMins : Int))),
                   bufferMinutes := 5, energyType := EnergyType.Light,
                   status := BlockStatus.pending, skipReason := none, sortOrder := 4 }],
       acc.2 + 1)

/-- Insert x into a ≤-sorted list after every element y with le y x; the
insertion step of a stable insertion sort. -/
def sInsert (le : α → α → Bool) (x : α) : List α → List α
  | [] => [x]
  | y :: ys => if le y x then y :: sInsert le x ys else x :: y :: ys

/-- Stable sort by the total preorder le, processing the input left to
right; this is the unique output an ES2019-stable Array.prototype.sort
produces for a consistent comparator. -/
def stableSortAux (le : α → α → Bool) : List α → List α → List α
  | acc, [] => acc
  | acc, x :: xs => stableSortAux le (sInsert le x acc) xs

def stableSortBy (le : α → α → Bool) (l : List α) : List α := stableSortAux le [] l

/-- Comparator of the final sort: date ascending (lexicographic on ISO
strings, i.e. chronological), then sortOrder ascending. -/
def blockLE (a b : ScheduledBlock) : Bool :=
  a.date < b.date || (a.date == b.date && a.sortOrder ≤ b.sortOrder)

/-- Comparator of the active-goal sort: priorityTier ascending. -/
def goalLE (a b : Goal) : Bool := a.priorityTier ≤ b.priorityTier

/-- The seven window dates, Monday through Sunday. -/
def windowDates (weekStart : Nat) : List Nat :=
  (List.range 7).map (fun i => weekStart + i)

/-- Blocks and id counter after pass 1. -/
def blocksAfterPass1 (ids : Nat → String) (state : AppState) (weekStart : Nat) :
    List ScheduledBlock × Nat :=
  (state.tasks.filter isFixedTask).foldl
    (pass1Step state.capacity (windowDates weekStart) ids) ([], 0)

/-- Blocks and id counter after pass 2. -/
def blocksAfterPass2 (ids : Nat → String) (state : AppState) (weekStart : Nat) :
    List ScheduledBlock × Nat :=
  let capacity := state.capacity
  let fixedTasks := state.tasks.filter isFixedTask
  (state.tasks.filter (isPass2Task fixedTasks)).foldl
    (pass2Step capacity (windowDates weekStart) (timeToMinutes capacity.workStart)
      (timeToMinutes capacity.workEnd) ids)
    (blocksAfterPass1 ids state weekStart)

/-- Blocks, scheduled-task-id set and id counter after pass 3. -/
def blocksAfterPass3 (ids : Nat → String) (state : AppState) (weekStart : Nat) :
    List ScheduledBlock × List String × Nat :=
  let capacity := state.capacity
  let b2 := blocksAfterPass2 ids state weekStart
  let activeGoals := stableSortBy goalLE (state.goals.filter (fun g => g.active))
  activeGoals.foldl
    (pass3GoalStep capacity state.tasks (windowDates weekStart)
      (timeToMinutes capacity.workStart) (timeToMinutes capacity.workEnd) ids)
    (b2.1, b2.1.map (fun b => b.taskId), b2.2)

/-- Blocks and id counter after pass 4 (before the final sort). -/
def blocksAfterPass4 (ids : Nat → String) (state : AppState) (weekStart : Nat) :
    List ScheduledBlock × Nat :=
  let capacity := state.capacity
  let b3 := blocksAfterPass3 ids state weekStart
  (windowDates weekStart).foldl
    (pass4Step capacity (state.tasks.filter isMicroTask)
      (timeToMinutes capacity.workStart) (timeToMinutes capacity.workEnd) ids)
    (b3.1, b3.2.2)

/-- store.ts runWeeklyScheduler: the four passes followed by the stable
sort on (date, sortOrder).  The state.capacity ?? DEFAULT_CAPACITY guard
of the source is the identity here because the model state always carries
its capacity record. -/
def runWeeklyScheduler (ids : Nat → String) (state : AppState) (weekStart : Nat) :
    List ScheduledBlock :=
  stableSortBy blockLE (blocksAfterPass4 ids state weekStart).1

/-! ## Store reducer (store.ts applyUpdate), the cases the claims touch -/

inductive StoreUpdate
  | setGoals (goals : List Goal)
  | setTasks (tasks : List Task)
  | setScheduledBlocks (blocks : List ScheduledBlock)
  | setCapacity (capacity : CapacitySettings)

/-- store.ts applyUpdate restricted to the modelled state fields; every
case builds a fresh record sharing the untouched fields. -/
def applyUpdate (state : AppState) (update : StoreUpdate) : AppState :=
  match update with
  | StoreUpdate.setGoals goals => { state with goals := goals }
  | StoreUpdate.setTasks tasks => { state with tasks := tasks }
  | StoreUpdate.setScheduledBlocks blocks => { state with scheduledBlocks := blocks }
  | StoreUpdate.setCapacity capacity => { state with capacity := capacity }

/-! ## Derived notions used by the statements -/

/-- Duration of a block in minutes, as read back from its stored clock
strings (endTime minus startTime, NaN-propagating). -/
def blockDuration (b : ScheduledBlock) : JsNum :=
  jsub (timeToMinutes b.endTime) (timeToMinutes b.startTime)

/-- A pair of blocks whose [start, end) minute intervals do not intersect
(vacuously disjoint when either block carries unparseable clock text). -/
def intervalsDisjoint (b c : ScheduledBlock) : Prop :=
  ∀ sb eb sc ec : Int,
    timeToMinutes b.startTime = some sb → timeToMinutes b.endTime = some eb →
    timeToMinutes c.startTime = some sc → timeToMinutes c.endTime = some ec →
    eb ≤ sc ∨ ec ≤ sb

/-- Status counted by the capacity evaluator: pending or in progress. -/
def countedStatus (b : ScheduledBlock) : Prop :=
  b.status = BlockStatus.pending ∨ b.status = BlockStatus.in_progress

/-- Canonical two-digit HH:mm rendering of a clock time. -/
def renderClock (h m : Nat) : String :=
  padStart2 (natDecimal h) ++ ":" ++ padStart2 (natDecimal m)

/-- Well-formed HH:mm clock string in the sense of the specification: two
digit pairs separated by a colon, hours below 24 and minutes below 60. -/
def isWellFormedClock (s : String) : Bool :=
  match s.data with
  | [h1, h2, c, m1, m2] =>
    h1.isDigit && h2.isDigit && c == ':' && m1.isDigit && m2.isDigit &&
      decide ((h1.toNat - 48) * 10 + (h2.toNat - 48) < 24) &&
      decide ((m1.toNat - 48) * 10 + (m2.toNat - 48) < 60)
  | _ => false

/-- Ceiling of estimatedMinutes times (1 + bufferPercent/100): the buffered
duration the specification asserts for scheduled blocks. -/
def specBufferedDuration (cap : CapacitySettings) (e : Nat) : Nat :=
  ceilDiv (e * (100 + cap.bufferPercent)) 100

/-- The id-independent content of a scheduled block. -/
structure BlockData where
  taskId : String
  date : Nat
  startTime : String
  endTime : String
  bufferMinutes : Nat
  energyType : EnergyType
  status : BlockStatus
  skipReason : Option String
  sortOrder : Nat
deriving DecidableEq, Repr

def eraseId (b : ScheduledBlock) : BlockData :=
  { taskId := b.taskId, date := b.date, startTime := b.startTime, endTime := b.endTime,
    bufferMinutes := b.bufferMinutes, energyType := b.energyType, status := b.status,
    skipReason := b.skipReason, sortOrder := b.sortOrder }

/-- The observation the determinism property compares: date, task id,
start and end clock strings, and sort order. -/
def blockObservation (b : ScheduledBlock) : Nat × String × String × String × Nat :=
  (b.date, b.taskId, b.startTime, b.endTime, b.sortOrder)

/-- The final-sort comparator read through eraseId. -/
def blockLEData (a b : BlockData) : Bool :=
  a.date < b.date || (a.date == b.date && a.sortOrder ≤ b.sortOrder)

/-- Validity envelope under which the amended timing statements hold: the
work-window clock strings parse (to ws and we minutes with ws nonnegative),
the window holds at least the 20-minute micro span, every task would fit
the work window once buffered, and every declared dueTime parses to a
nonnegative minute count. -/
def ValidEnv (s : AppState) (ws we : Int) : Prop :=
  timeToMinutes s.capacity.workStart = some ws ∧ 0 ≤ ws ∧
  timeToMinutes s.capacity.workEnd = some we ∧
  20 ≤ we - ws ∧
  (∀ t ∈ s.tasks, (taskSpan s.capacity t : Int) ≤ we - ws) ∧
  (∀ t ∈ s.tasks, ∀ u, t.dueTime = some u →
    ∃ v : Int, timeToMinutes u = some v ∧ 0 ≤ v)

/-- Timing invariant of an emitted block: its clock strings parse back to
minute counts 0 ≤ sb ≤ eb; a micro block spans exactly 20 minutes with
buffer 5 and Light energy, any other block spans the doubly-buffered
duration of the task it references. -/
def blockTimed (tasks : List Task) (cap : CapacitySettings) (b : ScheduledBlock) : Prop :=
  ∃ sb eb : Int, timeToMinutes b.startTime = some sb ∧ timeToMinutes b.endTime = some eb ∧
    0 ≤ sb ∧ sb ≤ eb ∧ b.status = BlockStatus.pending ∧
    (b.sortOrder = 4 → eb - sb = 20 ∧ b.bufferMinutes = 5 ∧ b.energyType = EnergyType.Light) ∧
    (b.sortOrder ≠ 4 → ∃ t ∈ tasks, t.id = b.taskId ∧ eb - sb = (taskSpan cap t : Int))

/-- Parseability of the clock strings of a block, with a nonnegative
start not after the end. -/
def blockParses (b : ScheduledBlock) : Prop :=
  ∃ sb eb : Int, timeToMinutes b.startTime = some sb ∧ timeToMinutes b.endTime = some eb ∧
    0 ≤ sb ∧ sb ≤ eb

/-- Shape invariant of every block the allocator emits: pending status, a
sort order among 1..4 (never the reserved 5), a fixed buffer of 5 on micro
blocks, and on the other blocks the percent buffer of the task the block
references. -/
def blockWellFormed (tasks : List Task) (cap : CapacitySettings) (b : ScheduledBlock) : Prop :=
  b.status = BlockStatus.pending ∧
  (b.sortOrder = 1 ∨ b.sortOrder = 2 ∨ b.sortOrder = 3 ∨ b.sortOrder = 4) ∧
  (b.sortOrder = 4 → b.bufferMinutes = 5) ∧
  (b.sortOrder ≠ 4 →
    ∃ t ∈ tasks, t.id = b.taskId ∧ b.bufferMinutes = bufferMins cap t.estimatedMinutes)

/-! ## Concrete inputs used by witnesses and counterexamples -/

/-- Deterministic id stream standing in for blockId(). -/
def sampleIds : Nat → String := fun n => "blk-" ++ natDecimal n

/-- Smart constructor for test tasks. -/
def testTask (id : String) (tt : TaskType) (e : Nat) (en : EnergyType)
    (dl : Option Nat) (dt : Option String) (gid : Option String) : Task :=
  { id := id, title := id, taskType := tt, goalId := gid, estimatedMinutes := e,
    energyType := en, deadline := dl, dueTime := dt, completed := false }

/-- One 60-minute deadline task under the default capacity. -/
def c1State : AppState :=
  { goals := [],
    tasks := [testTask "t1" TaskType.DeadlineTask 60 EnergyType.Light (some 100) none none],
    scheduledBlocks := [], capacity := DEFAULT_CAPACITY }

/-- One 240-minute deadline task under the default capacity: admitted by
the limit check yet overflowing the daily planned cap once placed. -/
def c2State : AppState :=
  { goals := [],
    tasks := [testTask "t1" TaskType.DeadlineTask 240 EnergyType.Light (some 100) none none],
    scheduledBlocks := [], capacity := DEFAULT_CAPACITY }

/-- Two fixed events requesting the same date and clock time. -/
def c3State : AppState :=
  { goals := [],
    tasks := [testTask "t1" TaskType.FixedEvent 60 EnergyType.Light (some 100) (some "10:00") none,
              testTask "t2" TaskType.FixedEvent 60 EnergyType.Light (some 100) (some "10:00") none],
    scheduledBlocks := [], capacity := DEFAULT_CAPACITY }

/-- Two small deadline tasks on the same date under the default capacity;
every validity hypothesis of the amended no-overlap statement holds. -/
def c3wState : AppState :=
  { goals := [],
    tasks := [testTask "t1" TaskType.DeadlineTask 60 EnergyType.Light (some 100) none none,
              testTask "t2" TaskType.DeadlineTask 40 EnergyType.Light (some 100) none none],
    scheduledBlocks := [], capacity := DEFAULT_CAPACITY }

/-- One goal with a two-session quota and a single linked task. -/
def c4State : AppState :=
  { goals := [{ id := "g1", name := "g1", weeklyQuotaHours := none,
                weeklyQuotaSessions := some 2, priorityTier := 1, active := true }],
    tasks := [testTask "t1" TaskType.GoalTask 30 EnergyType.Deep none none (some "g1")],
    scheduledBlocks := [], capacity := DEFAULT_CAPACITY }

/-- A five-minute work window: the pass-4 stacking formula then clamps the
start below zero and the stored clock strings no longer round-trip. -/
def c9State : AppState :=
  { goals := [],
    tasks := [testTask "m1" TaskType.MicroTask 10 EnergyType.Deep none none none],
    scheduledBlocks := [],
    capacity := { DEFAULT_CAPACITY with workStart := "00:05", workEnd := "00:10" } }

/-- One micro task under the default capacity. -/
def c9wState : AppState :=
  { goals := [],
    tasks := [testTask "m1" TaskType.MicroTask 10 EnergyType.Deep none none none],
    scheduledBlocks := [], capacity := DEFAULT_CAPACITY }

/-- First fixed block produced on c3State. -/
def c3BlockA : ScheduledBlock :=
  { id := "blk-0", taskId := "t1", date := 100, startTime := "10:00", endTime := "11:30",
    bufferMinutes := 15, energyType := EnergyType.Light, status := BlockStatus.pending,
    skipReason := none, sortOrder := 1 }

/-- Second fixed block produced on c3State, fully overlapping the first. -/
def c3BlockB : ScheduledBlock :=
  { id := "blk-1", taskId := "t2", date := 100, startTime := "10:00", endTime := "11:30",
    bufferMinutes := 15, energyType := EnergyType.Light, status := BlockStatus.pending,
    skipReason := none, sortOrder := 1 }

/-- Validity envelope of the amended no-overlap statement: the work-window
clock strings parse, the daily cap fits inside the work window, and the
input contains no pass-1 (fixed-placement) tasks, whose unconditional
verbatim placement is the documented collision gap. -/
def NoOverlapEnv (s : AppState) (ws we : Int) : Prop :=
  timeToMinutes s.capacity.workStart = some ws ∧ 0 ≤ ws ∧
  timeToMinutes s.capacity.workEnd = some we ∧
  ((s.capacity.maxPlannedHoursPerDay : Int) * 60 ≤ we - ws) ∧
  s.tasks.filter isFixedTask = []

/-- Stacking invariant: every block parses to an interval inside
[ws, ws + planned(date)], so a new block starting at ws + planned(date)
cannot collide with it. -/
def stackBound (ws : Int) (acc : List ScheduledBlock) : Prop :=
  ∀ b ∈ acc, ∃ sb eb pd : Int, timeToMinutes b.startTime = some sb ∧
    timeToMinutes b.endTime = some eb ∧ ws ≤ sb ∧ sb ≤ eb ∧
    b.status = BlockStatus.pending ∧
    getPlannedMinutesForDay acc b.date true = some pd ∧ eb ≤ ws + pd

/-- Two blocks on equal dates have disjoint intervals. -/
def dateDisjoint (b c : ScheduledBlock) : Prop := b.date = c.date → intervalsDisjoint b c

/-- Micro-pass facts of a sortOrder-4 block: its task comes from the micro
candidate list, and the planned minutes of its date in the pre-pass-4
block list were strictly below the daily cap minus 20. -/
def microBlockOK (micro : List Task) (base : List ScheduledBlock) (cap : CapacitySettings)
    (b : ScheduledBlock) : Prop :=
  (∃ t ∈ micro, t.id = b.taskId) ∧
  jltB (getPlannedMinutesForDay base b.date true)
    (some ((cap.maxPlannedHoursPerDay : Int) * 60 - 20)) = true

/-- Pairwise micro discipline: two micro blocks never share a date, and a
micro block never shares its (taskId, date) pair with any other block. -/
def microPairOK (b c : ScheduledBlock) : Prop :=
  (b.sortOrder = 4 → c.sortOrder = 4 → b.date ≠ c.date) ∧
  ((b.sortOrder = 4 ∨ c.sortOrder = 4) → ¬ (b.taskId = c.taskId ∧ b.date = c.date))

/-- Micro block produced on c9wState on the first window day. -/
def c9Block : ScheduledBlock :=
  { id := "blk-0", taskId := "m1", date := 100, startTime := "09:00", endTime := "09:20",
    bufferMinutes := 5, energyType := EnergyType.Light, status := BlockStatus.pending,
    skipReason := none, sortOrder := 4 }

/-- Block of sort order 2 produced on c1State. -/
def c10Block : ScheduledBlock :=
  { id := "blk-0", taskId := "t1", date := 100, startTime := "09:00", endTime := "10:30",
    bufferMinutes := 15, energyType := EnergyType.Light, status := BlockStatus.pending,
    skipReason := none, sortOrder := 2 }

/-! ## Theorems -/

/-! ### Generic lemmas on folds and the stable sort -/

theorem foldl_preserve {α β : Type _} (P : β → Prop) (f : β → α → β) :
    ∀ {l : List α}, (∀ acc x, x ∈ l → P acc → P (f acc x)) →
      ∀ {init : β}, P init → P (l.foldl f init) := by
  intro l
  induction l with
  | nil => intro _ init h; simpa using h
  | cons a l ih =>
    intro hstep init hinit
    rw [List.foldl_cons]
    exact ih (fun acc x hx => hstep acc x (List.mem_cons_of_mem a hx))
      (hstep init a (List.mem_cons_self a l) hinit)

theorem sInsert_perm (le : α → α → Bool) (x : α) :
    ∀ l : List α, (sInsert le x l).Perm (x :: l) := by
  intro l
  induction l with
  | nil => exact List.Perm.refl _
  | cons y ys ih =>
    rw [sInsert]
    split
    · exact (ih.cons y).trans (List.Perm.swap x y ys)
    · exact List.Perm.refl _

theorem stableSortAux_perm (le : α → α → Bool) :
    ∀ (l acc : List α), (stableSortAux le acc l).Perm (acc ++ l) := by
  intro l
  induction l with
  | nil => intro acc; simp [stableSortAux]
  | cons x xs ih =>
    intro acc
    rw [stableSortAux]
    refine (ih (sInsert le x acc)).trans ?_
    refine (((sInsert_perm le x acc).append_right xs).trans ?_)
    exact List.perm_middle.symm

theorem stableSortBy_perm (le : α → α → Bool) (l : List α) :
    (stableSortBy le l).Perm l := by
  simpa [stableSortBy] using stableSortAux_perm le l []

theorem mem_stableSortBy {le : α → α → Bool} {l : List α} {b : α} :
    b ∈ stableSortBy le l ↔ b ∈ l :=
  (stableSortBy_perm le l).mem_iff

theorem pairwise_stableSortBy {R : α → α → Prop} (hs : ∀ {x y}, R x y → R y x)
    {le : α → α → Bool} {l : List α} (h : List.Pairwise R l) :
    List.Pairwise R (stableSortBy le l) :=
  ((stableSortBy_perm le l).pairwise_iff hs).mpr h

theorem map_sInsert (f : α → β) (le : α → α → Bool) (le' : β → β → Bool)
    (hle : ∀ a b, le a b = le' (f a) (f b)) (x : α) :
    ∀ l : List α, (sInsert le x l).map f = sInsert le' (f x) (l.map f) := by
  intro l
  induction l with
  | nil => rfl
  | cons y ys ih =>
    rw [sInsert, List.map_cons, sInsert, ← hle]
    split
    · rw [List.map_cons, ih]
    · rw [List.map_cons, List.map_cons]

theorem map_stableSortAux (f : α → β) (le : α → α → Bool) (le' : β → β → Bool)
    (hle : ∀ a b, le a b = le' (f a) (f b)) :
    ∀ (l acc : List α), (stableSortAux le acc l).map f = stableSortAux le' (acc.map f) (l.map f) := by
  intro l
  induction l with
  | nil => intro acc; rfl
  | cons x xs ih =>
    intro acc
    rw [stableSortAux, List.map_cons, stableSortAux, ih, map_sInsert f le le' hle]

theorem map_stableSortBy (f : α → β) (le : α → α → Bool) (le' : β → β → Bool)
    (hle : ∀ a b, le a b = le' (f a) (f b)) (l : List α) :
    (stableSortBy le l).map f = stableSortBy le' (l.map f) := by
  simpa [stableSortBy] using map_stableSortAux f le le' hle l []

/-! ### Shape invariant of emitted blocks (used by C10) -/

theorem mem_of_taskChoice {l : List Task} {p₁ p₂ : Task → Bool} {t : Task}
    (h : ((l.find? p₁).orElse (fun _ => l.find? p₂)).orElse (fun _ => l.head?) = some t) :
    t ∈ l := by
  rcases h₁ : l.find? p₁ with _ | t₁
  · rcases h₂ : l.find? p₂ with _ | t₂
    · rcases l with _ | ⟨hd, tl⟩
      · simp [h₁, h₂, Option.orElse] at h
      · simp [h₁, h₂, Option.orElse, List.head?] at h
        rw [← h]
        exact List.mem_cons_self _ _
    · simp [h₁, h₂, Option.orElse] at h
      rw [← h]
      exact List.mem_of_find?_eq_some h₂
  · simp [h₁, Option.orElse] at h
    rw [← h]
    exact List.mem_of_find?_eq_some h₁

theorem pass1Step_wf {tasks : List Task} {cap : CapacitySettings} {dd : List Nat}
    {ids : Nat → String} {acc : List ScheduledBlock × Nat} {t : Task}
    (ht : t ∈ tasks) (hacc : ∀ b ∈ acc.1, blockWellFormed tasks cap b) :
    ∀ b ∈ (pass1Step cap dd ids acc t).1, blockWellFormed tasks cap b := by
  intro b hb
  simp only [pass1Step] at hb
  split at hb
  · exact hacc b hb
  · rcases List.mem_append.mp hb with h | h
    · exact hacc b h
    · rw [List.mem_singleton.mp h]
      refine ⟨rfl, Or.inl rfl, ?_, ?_⟩
      · intro h4; simp at h4
      · intro _; exact ⟨t, ht, rfl, rfl⟩

theorem pass2Step_wf {tasks : List Task} {cap : CapacitySettings} {dd : List Nat}
    {wS wE : JsNum} {ids : Nat → String} {acc : List ScheduledBlock × Nat} {t : Task}
    (ht : t ∈ tasks) (hacc : ∀ b ∈ acc.1, blockWellFormed tasks cap b) :
    ∀ b ∈ (pass2Step cap dd wS wE ids acc t).1, blockWellFormed tasks cap b := by
  intro b hb
  simp only [pass2Step] at hb
  split at hb
  · exact hacc b hb
  · split at hb
    · exact hacc b hb
    · split at hb
      · exact hacc b hb
      · rcases List.mem_append.mp hb with h | h
        · exact hacc b h
        · rw [List.mem_singleton.mp h]
          refine ⟨rfl, Or.inr (Or.inl rfl), ?_, ?_⟩
          · intro h4; simp at h4
          · intro _; exact ⟨t, ht, rfl, rfl⟩

theorem pass3DateStep_wf {tasks : List Task} {cap : CapacitySettings} {goalTasks : List Task}
    {quota : Nat} {wS wE : JsNum} {ids : Nat → String} {acc : Pass3Acc} {d : Nat}
    (hg : ∀ t ∈ goalTasks, t ∈ tasks)
    (hacc : ∀ b ∈ acc.1, blockWellFormed tasks cap b) :
    ∀ b ∈ (pass3DateStep cap goalTasks quota wS wE ids acc d).1, blockWellFormed tasks cap b := by
  intro b hb
  simp only [pass3DateStep] at hb
  split at hb
  · exact hacc b hb
  · split at hb
    · exact hacc b hb
    · split at hb
      · exact hacc b hb
      · rename_i task htask
        split at hb
        · exact hacc b hb
        · rcases List.mem_append.mp hb with h | h
          · exact hacc b h
          · rw [List.mem_singleton.mp h]
            refine ⟨rfl, Or.inr (Or.inr (Or.inl rfl)), ?_, ?_⟩
            · intro h4; simp at h4
            · intro _; exact ⟨task, hg task (mem_of_taskChoice htask), rfl, rfl⟩

theorem pass3GoalStep_wf {tasks : List Task} {cap : CapacitySettings} {dd : List Nat}
    {wS wE : JsNum} {ids : Nat → String} {acc : List ScheduledBlock × List String × Nat} {g : Goal}
    (hacc : ∀ b ∈ acc.1, blockWellFormed tasks cap b) :
    ∀ b ∈ (pass3GoalStep cap tasks dd wS wE ids acc g).1, blockWellFormed tasks cap b := by
  simp only [pass3GoalStep]
  split
  · exact hacc
  · exact foldl_preserve
      (fun a : Pass3Acc => ∀ b ∈ a.1, blockWellFormed tasks cap b) _
      (fun a d _ ha => pass3DateStep_wf (fun t ht => (List.mem_filter.mp ht).1) ha)
      hacc

theorem pass4Step_wf {tasks : List Task} {cap : CapacitySettings} {microTasks : List Task}
    {wS wE : JsNum} {ids : Nat → String} {acc : List ScheduledBlock × Nat} {d : Nat}
    (hacc : ∀ b ∈ acc.1, blockWellFormed tasks cap b) :
    ∀ b ∈ (pass4Step cap microTasks wS wE ids acc d).1, blockWellFormed tasks cap b := by
  intro b hb
  simp only [pass4Step] at hb
  split at hb
  · exact hacc b hb
  · split at hb
    · exact hacc b hb
    · rcases List.mem_append.mp hb with h | h
      · exact hacc b h
      · rw [List.mem_singleton.mp h]
        refine ⟨rfl, Or.inr (Or.inr (Or.inr rfl)), fun _ => rfl, ?_⟩
        intro h4; exact absurd rfl h4

theorem blocksAfterPass1_wf (ids : Nat → String) (s : AppState) (w : Nat) :
    ∀ b ∈ (blocksAfterPass1 ids s w).1, blockWellFormed s.tasks s.capacity b := by
  refine foldl_preserve
    (fun a : List ScheduledBlock × Nat => ∀ b ∈ a.1, blockWellFormed s.tasks s.capacity b) _
    (fun a t ht ha => pass1Step_wf (List.mem_filter.mp ht).1 ha) ?_
  intro b hb
  exact absurd hb (List.not_mem_nil b)

theorem blocksAfterPass2_wf (ids : Nat → String) (s : AppState) (w : Nat) :
    ∀ b ∈ (blocksAfterPass2 ids s w).1, blockWellFormed s.tasks s.capacity b := by
  refine foldl_preserve
    (fun a : List ScheduledBlock × Nat => ∀ b ∈ a.1, blockWellFormed s.tasks s.capacity b) _
    (fun a t ht ha => pass2Step_wf (List.mem_filter.mp ht).1 ha)
    (blocksAfterPass1_wf ids s w)

theorem blocksAfterPass3_wf (ids : Nat → String) (s : AppState) (w : Nat) :
    ∀ b ∈ (blocksAfterPass3 ids s w).1, blockWellFormed s.tasks s.capacity b := by
  refine foldl_preserve
    (fun a : List ScheduledBlock × List String × Nat =>
      ∀ b ∈ a.1, blockWellFormed s.tasks s.capacity b) _
    (fun a g _ ha => pass3GoalStep_wf ha)
    (blocksAfterPass2_wf ids s w)

theorem blocksAfterPass4_wf (ids : Nat → String) (s : AppState) (w : Nat) :
    ∀ b ∈ (blocksAfterPass4 ids s w).1, blockWellFormed s.tasks s.capacity b := by
  refine foldl_preserve
    (fun a : List ScheduledBlock × Nat => ∀ b ∈ a.1, blockWellFormed s.tasks s.capacity b) _
    (fun a d _ ha => pass4Step_wf ha)
    (blocksAfterPass3_wf ids s w)

/-- C10: every block returned by runWeeklyScheduler has status pending and
a sort order in 1..4 (the reserved 5 is never emitted); micro blocks carry
bufferMinutes 5, every other block carries the percent buffer
ceil(estimatedMinutes times bufferPercent over 100) of the task it
references. -/
theorem c10_block_shape (ids : Nat → String) (s : AppState) (w : Nat) :
    ∀ b ∈ runWeeklyScheduler ids s w, blockWellFormed s.tasks s.capacity b := by
  intro b hb
  exact blocksAfterPass4_wf ids s w b (mem_stableSortBy.mp hb)

/-- Witness for C10: the deadline block produced on c1State satisfies the
shape invariant. -/
theorem c10_witness :
    c10Block ∈ runWeeklyScheduler sampleIds c1State 100 ∧
      blockWellFormed c1State.tasks c1State.capacity c10Block :=
  ⟨by decide, c10_block_shape sampleIds c1State 100 c10Block (by decide)⟩

/-- C5: wouldExceedDailyLimits returns ok = false exactly when the planned
minutes of the date plus the candidate exceed maxPlannedHoursPerDay times
60, or the candidate is Deep and the deep-block count has reached
maxDeepBlocksPerDay; the total-time check runs first and contributes its
reason, the deep check second; otherwise ok = true, always as a structured
result (the function is total). -/
theorem c5_wouldExceedDailyLimits_spec (capacity : CapacitySettings)
    (blocks : List ScheduledBlock) (date : Nat) (cand : Int) (energy : EnergyType) (p : Int)
    (hp : getPlannedMinutesForDay blocks date true = some p) :
    ((wouldExceedDailyLimits capacity blocks date cand energy).ok = false ↔
      ((capacity.maxPlannedHoursPerDay : Int) * 60 < p + cand ∨
        (energy = EnergyType.Deep ∧
          capacity.maxDeepBlocksPerDay ≤ getDeepBlockCountForDay blocks date))) ∧
    ((capacity.maxPlannedHoursPerDay : Int) * 60 < p + cand →
      (wouldExceedDailyLimits capacity blocks date cand energy).reason =
        some (timeLimitReason capacity)) ∧
    (¬ ((capacity.maxPlannedHoursPerDay : Int) * 60 < p + cand) →
      energy = EnergyType.Deep →
      capacity.maxDeepBlocksPerDay ≤ getDeepBlockCountForDay blocks date →
      (wouldExceedDailyLimits capacity blocks date cand energy).reason =
        some (deepLimitReason capacity)) ∧
    ((wouldExceedDailyLimits capacity blocks date cand energy).ok = true →
      (wouldExceedDailyLimits capacity blocks date cand energy).reason = none) := by
  unfold wouldExceedDailyLimits
  rw [hp]
  simp only [jadd, jgtB]
  rcases lt_or_le ((capacity.maxPlannedHoursPerDay : Int) * 60) (p + cand) with hlt | hle
  · simp [hlt, hlt.not_le]
  · have hnot : ¬ ((capacity.maxPlannedHoursPerDay : Int) * 60 < p + cand) := not_lt.mpr hle
    rcases he : energy == EnergyType.Deep with _ | _
    · have he' : energy ≠ EnergyType.Deep := by
        intro h; subst h; simp at he
      simp [hnot, he, he']
    · have he' : energy = EnergyType.Deep := by
        cases energy <;> simp_all
      rcases hd : decide (capacity.maxDeepBlocksPerDay ≤ getDeepBlockCountForDay blocks date)
        with _ | _
      · have hd' := of_decide_eq_false hd
        simp [hnot, he, he', hd', if_neg (by omega : ¬ getDeepBlockCountForDay blocks date ≥ capacity.maxDeepBlocksPerDay)]
      · have hd' := of_decide_eq_true hd
        simp [hnot, he, he', hd', if_pos (by omega : getDeepBlockCountForDay blocks date ≥ capacity.maxDeepBlocksPerDay)]

/-- Witness for C5 at a concrete input: empty block list, candidate of 400
minutes against the default six-hour cap, failing the total-time check. -/
theorem c5_witness :
    getPlannedMinutesForDay [] 0 true = some 0 ∧
    ((wouldExceedDailyLimits DEFAULT_CAPACITY [] 0 400 EnergyType.Deep).ok = false ↔
      ((DEFAULT_CAPACITY.maxPlannedHoursPerDay : Int) * 60 < 0 + 400 ∨
        (EnergyType.Deep = EnergyType.Deep ∧
          DEFAULT_CAPACITY.maxDeepBlocksPerDay ≤ getDeepBlockCountForDay [] 0))) :=
  ⟨by decide,
   (c5_wouldExceedDailyLimits_spec DEFAULT_CAPACITY [] 0 400 EnergyType.Deep 0 (by decide)).1⟩

/-- C8 (amended): timeToMinutes maps every canonical HH:mm clock string to
its minutes since midnight, but performs no format validation: malformed
input is never rejected with an error; it yields NaN or even an unintended
ordinary value, as the two sample inputs show. -/
theorem c8_timeToMinutes_parse :
    (∀ h : Nat, h < 24 → ∀ m : Nat, m < 60 →
      timeToMinutes (renderClock h m) = some ((h : Int) * 60 + (m : Int))) ∧
    timeToMinutes "1:2:3" = some 62 ∧ timeToMinutes "aa:bb" = none := by
  refine ⟨by decide, by decide, by decide⟩

/-- Witness for C8: the canonical rendering of 9 hours 30 minutes parses
back to 570 minutes. -/
theorem c8_witness :
    (9 : Nat) < 24 ∧ (30 : Nat) < 60 ∧
      timeToMinutes (renderClock 9 30) = some 570 :=
  ⟨by decide, by decide, c8_timeToMinutes_parse.1 9 (by decide) 30 (by decide)⟩

/-- Counterexample for C8 as stated: the malformed input 1:2:3 is not
rejected (the only failure signal timeToMinutes can produce is NaN, and
here it produces the ordinary value 62 instead). -/
theorem c8_counterexample :
    ¬ (∀ s : String, isWellFormedClock s = false → timeToMinutes s = none) := by
  intro hcl
  have h2 := hcl "1:2:3" (by decide)
  exact absurd h2 (by decide)

/-- C2 (code bug): on a single 240-minute deadline task under the default
capacity the limit check admits the block (300 + 60 candidate equals the
360-minute cap), but the planned-minutes metric then counts the buffer a
second time, leaving the day at 420 planned minutes, above the cap the
claim asserts. -/
theorem c2_daily_cap_violated :
    getPlannedMinutesForDay (runWeeklyScheduler sampleIds c2State 100) 100 true = some 420 ∧
    (c2State.capacity.maxPlannedHoursPerDay : Int) * 60 < 420 := by
  refine ⟨by decide, by decide⟩

/-- C4 (code bug): pass 3 computes the candidate list of a goal once and
never removes a placed task from it, so one linked task with a two-session
quota is scheduled twice in a single run. -/
theorem c4_task_scheduled_twice :
    ((runWeeklyScheduler sampleIds c4State 100).filter (fun b => b.taskId == "t1")).length = 2 := by
  decide

/-- C7: the allocator and the store reducer never mutate caller state: the
returned schedule is independent of whatever scheduledBlocks the state
already carries (the run builds a fresh collection from an empty array),
and committing a result through the reducer replaces exactly the
scheduledBlocks field, leaving goals, tasks and capacity untouched.  All
model functions are pure, mirroring the absence of any assignment to the
arguments in the source. -/
theorem c7_frame_effects :
    ∀ (ids : Nat → String) (s : AppState) (w : Nat) (bs : List ScheduledBlock),
    runWeeklyScheduler ids { s with scheduledBlocks := bs } w = runWeeklyScheduler ids s w ∧
    (applyUpdate s (StoreUpdate.setScheduledBlocks bs)).goals = s.goals ∧
    (applyUpdate s (StoreUpdate.setScheduledBlocks bs)).tasks = s.tasks ∧
    (applyUpdate s (StoreUpdate.setScheduledBlocks bs)).capacity = s.capacity ∧
    (applyUpdate s (StoreUpdate.setScheduledBlocks bs)).scheduledBlocks = bs :=
  fun _ _ _ _ => ⟨rfl, rfl, rfl, rfl, rfl⟩

/-- Counterexample for C1 as stated: on one 60-minute deadline task with
the default 25 percent buffer the produced block runs 09:00 to 10:30, 90
minutes, not the asserted ceil(60 times 1.25) = 75: the code stretches the
block by the 1.25 multiplier and then adds the percent buffer again. -/
theorem c1_counterexample :
    ¬ (∀ b ∈ runWeeklyScheduler sampleIds c1State 100, b.sortOrder ≠ 4 →
        ∀ t ∈ c1State.tasks, t.id = b.taskId →
        blockDuration b = some ((specBufferedDuration c1State.capacity t.estimatedMinutes : Int))) := by
  decide

/-- Counterexample for C9 as stated: with a five-minute work window the
micro block is clamped to a negative start minute, whose stored rendering
re-parses to minus 90, so the duration read back from the block is 80
minutes, not the asserted fixed 20. -/
theorem c9_counterexample :
    ¬ (∀ b ∈ runWeeklyScheduler sampleIds c9State 100, b.sortOrder = 4 →
        blockDuration b = some 20) := by
  decide

/-- Counterexample for C3 as stated: two fixed events requesting the same
slot are both placed verbatim by pass 1 (which performs no collision
check), producing two pending blocks on the same date with identical,
fully intersecting intervals. -/
theorem c3_counterexample :
    ¬ (∀ b ∈ runWeeklyScheduler sampleIds c3State 100,
        ∀ c ∈ runWeeklyScheduler sampleIds c3State 100,
        b ≠ c → countedStatus b → countedStatus c → b.date = c.date →
        intervalsDisjoint b c) := by
  intro hcl
  have hd := hcl c3BlockA (by decide) c3BlockB (by decide) (by decide)
    (Or.inl rfl) (Or.inl rfl) rfl
  have hcontra := hd 600 690 600 690 (by decide) (by decide) (by decide) (by decide)
  omega

/-! ### Round trip between minutesToTime and timeToMinutes -/

theorem digitsToNatAux_append (l₁ l₂ : List Char) :
    ∀ acc, digitsToNatAux acc (l₁ ++ l₂) =
      (digitsToNatAux acc l₁).bind (fun v => digitsToNatAux v l₂) := by
  induction l₁ with
  | nil => intro acc; rfl
  | cons c cs ih =>
    intro acc
    by_cases hc : c.isDigit = true
    · simp only [List.cons_append, digitsToNatAux, if_pos hc]
      exact ih _
    · simp only [List.cons_append, digitsToNatAux, if_neg hc]
      rfl

theorem digitChar_facts : ∀ m : Nat, m < 10 →
    (Char.ofNat (48 + m)).isDigit = true ∧ (Char.ofNat (48 + m)).toNat - 48 = m := by
  intro m hm
  interval_cases m <;> exact ⟨by decide, by decide⟩

theorem natDecimalAux_parse :
    ∀ fuel n acc, n < fuel →
      digitsToNatAux acc (natDecimalAux fuel n) =
        some (acc * 10 ^ (natDecimalAux fuel n).length + n) := by
  intro fuel
  induction fuel with
  | zero => intro n acc h; exact absurd h (Nat.not_lt_zero n)
  | succ fuel ih =>
    intro n acc h
    by_cases h10 : n < 10
    · simp only [natDecimalAux, if_pos h10]
      simp only [digitsToNatAux, if_pos (digitChar_facts n h10).1, (digitChar_facts n h10).2,
        List.length_cons, List.length_nil]
      norm_num
    · simp only [natDecimalAux, if_neg h10]
      rw [digitsToNatAux_append]
      have hdiv : n / 10 < fuel :=
        lt_of_lt_of_le (Nat.div_lt_self (by omega) (by omega)) (by omega)
      rw [ih (n / 10) acc hdiv]
      have hm : n % 10 < 10 := Nat.mod_lt _ (by omega)
      simp only [Option.bind, digitsToNatAux, if_pos (digitChar_facts _ hm).1,
        (digitChar_facts _ hm).2, List.length_append, List.length_cons, List.length_nil]
      congr 1
      rw [pow_succ, ← Nat.mul_assoc]
      have key : ∀ A : Nat, (A + n / 10) * 10 + n % 10 = A * 10 + n := by
        intro A; omega
      exact key (acc * 10 ^ (natDecimalAux fuel (n / 10)).length)

theorem natDecimalAux_ne_nil (fuel n : Nat) (h : 0 < fuel) : natDecimalAux fuel n ≠ [] := by
  cases fuel with
  | zero => omega
  | succ fuel =>
    simp only [natDecimalAux]
    split
    · simp
    · simp

theorem natDecimal_parse (n : Nat) : digitsToNat ((natDecimal n).data) = some n := by
  have h := natDecimalAux_parse (n + 1) n 0 (Nat.lt_succ_self n)
  rw [Nat.zero_mul, Nat.zero_add] at h
  have hdata : (natDecimal n).data = natDecimalAux (n + 1) n := rfl
  rcases hl : natDecimalAux (n + 1) n with _ | ⟨c, cs⟩
  · exact absurd hl (natDecimalAux_ne_nil (n + 1) n (Nat.succ_pos n))
  · rw [hdata, hl]
    rw [hl] at h
    rw [digitsToNat]
    exact h

theorem natDecimalAux_isDigit : ∀ fuel n c, c ∈ natDecimalAux fuel n → c.isDigit = true := by
  intro fuel
  induction fuel with
  | zero => intro n c hc; simp [natDecimalAux] at hc
  | succ fuel ih =>
    intro n c hc
    by_cases h10 : n < 10
    · simp only [natDecimalAux, if_pos h10, List.mem_singleton] at hc
      rw [hc]; exact (digitChar_facts n h10).1
    · simp only [natDecimalAux, if_neg h10, List.mem_append, List.mem_singleton] at hc
      rcases hc with hc | hc
      · exact ih _ c hc
      · rw [hc]; exact (digitChar_facts (n % 10) (Nat.mod_lt _ (by omega))).1

theorem isDigit_ne {c : Char} (h : c.isDigit = true) :
    (c == ':') = false ∧ (c == '-') = false := by
  constructor
  · rcases hb : (c == ':') with _ | _
    · rfl
    · have hc : c = ':' := eq_of_beq hb
      subst hc
      exact absurd h (by decide)
  · rcases hb : (c == '-') with _ | _
    · rfl
    · have hc : c = '-' := eq_of_beq hb
      subst hc
      exact absurd h (by decide)

theorem digitsToNat_eq_aux {l : List Char} (h : l ≠ []) : digitsToNat l = digitsToNatAux 0 l := by
  cases l with
  | nil => exact absurd rfl h
  | cons c cs => rfl

theorem digitsToNatAux_zero_prefix :
    ∀ (k : Nat) (l : List Char),
      digitsToNatAux 0 (List.replicate k '0' ++ l) = digitsToNatAux 0 l := by
  intro k
  induction k with
  | zero => intro l; rfl
  | succ k ih =>
    intro l
    rw [List.replicate_succ, List.cons_append]
    simp only [digitsToNatAux, if_pos (show ('0' : Char).isDigit = true by decide)]
    have h0 : 0 * 10 + (('0' : Char).toNat - 48) = 0 := by decide
    rw [h0]
    exact ih l

theorem strDataAppend (s t : String) : (s ++ t).data = s.data ++ t.data := by
  cases s; cases t; rfl

theorem padStart2_parse {s : String} {v : Nat}
    (hdig : ∀ c ∈ s.data, c.isDigit = true) (hne : s.data ≠ [])
    (hv : digitsToNat s.data = some v) :
    (padStart2 s).data ≠ [] ∧ (∀ c ∈ (padStart2 s).data, c.isDigit = true) ∧
      digitsToNat ((padStart2 s).data) = some v := by
  unfold padStart2
  split
  · exact ⟨hne, hdig, hv⟩
  · have hdata : (String.mk (List.replicate (2 - s.length) '0') ++ s).data
        = List.replicate (2 - s.length) '0' ++ s.data := by
      rw [strDataAppend]
    refine ⟨?_, ?_, ?_⟩
    · rw [hdata]
      intro hcontra
      rcases List.append_eq_nil.mp hcontra with ⟨-, h2⟩
      exact hne h2
    · rw [hdata]
      intro c hc
      rcases List.mem_append.mp hc with hc | hc
      · rw [List.eq_of_mem_replicate hc]; decide
      · exact hdig c hc
    · rw [hdata]
      have hne2 : List.replicate (2 - s.length) '0' ++ s.data ≠ [] := by
        intro hcontra
        rcases List.append_eq_nil.mp hcontra with ⟨-, h2⟩
        exact hne h2
      rw [digitsToNat_eq_aux hne2, digitsToNatAux_zero_prefix, ← digitsToNat_eq_aux hne]
      exact hv

theorem jsNumber_digits {l : List Char} {n : Nat}
    (hl : ∀ c ∈ l, c.isDigit = true) (h : digitsToNat l = some n) :
    jsNumberOfChars l = some ((n : Nat) : Int) := by
  cases l with
  | nil => simp [digitsToNat] at h
  | cons c cs =>
    have hd := hl c (List.mem_cons_self c cs)
    rw [jsNumberOfChars, if_neg (by rw [(isDigit_ne hd).2]; simp)]
    rw [h]
    rfl

theorem splitCharAux_no_sep (sep : Char) :
    ∀ (l cur : List Char), (∀ c ∈ l, (c == sep) = false) →
      splitCharAux sep l cur = [cur.reverse ++ l] := by
  intro l
  induction l with
  | nil => intro cur h; simp [splitCharAux]
  | cons c cs ih =>
    intro cur h
    have hc := h c (List.mem_cons_self c cs)
    simp only [splitCharAux, hc, Bool.false_eq_true, if_false]
    rw [ih (c :: cur) (fun x hx => h x (List.mem_cons_of_mem c hx))]
    simp

theorem splitCharAux_sep (sep : Char) :
    ∀ (l₁ cur l₂ : List Char), (∀ c ∈ l₁, (c == sep) = false) →
      splitCharAux sep (l₁ ++ sep :: l₂) cur =
        (cur.reverse ++ l₁) :: splitCharAux sep l₂ [] := by
  intro l₁
  induction l₁ with
  | nil =>
    intro cur l₂ h
    simp [splitCharAux]
  | cons c cs ih =>
    intro cur l₂ h
    have hc := h c (List.mem_cons_self c cs)
    simp only [List.cons_append, splitCharAux, hc, Bool.false_eq_true, if_false, List.append_eq]
    rw [ih (c :: cur) l₂ (fun x hx => h x (List.mem_cons_of_mem c hx))]
    simp

theorem timeToMinutes_rendered (a b : Nat) :
    timeToMinutes (padStart2 (natDecimal a) ++ ":" ++ padStart2 (natDecimal b)) =
      some ((a : Int) * 60 + (b : Int)) := by
  have hdigA : ∀ c ∈ (natDecimal a).data, c.isDigit = true :=
    fun c hc => natDecimalAux_isDigit (a + 1) a c hc
  have hdigB : ∀ c ∈ (natDecimal b).data, c.isDigit = true :=
    fun c hc => natDecimalAux_isDigit (b + 1) b c hc
  have hneA : (natDecimal a).data ≠ [] := natDecimalAux_ne_nil (a + 1) a (Nat.succ_pos a)
  have hneB : (natDecimal b).data ≠ [] := natDecimalAux_ne_nil (b + 1) b (Nat.succ_pos b)
  obtain ⟨hneA', hdigA', hvA⟩ := padStart2_parse hdigA hneA (natDecimal_parse a)
  obtain ⟨hneB', hdigB', hvB⟩ := padStart2_parse hdigB hneB (natDecimal_parse b)
  have hdata : (padStart2 (natDecimal a) ++ ":" ++ padStart2 (natDecimal b)).data =
      (padStart2 (natDecimal a)).data ++ ':' :: (padStart2 (natDecimal b)).data := by
    rw [strDataAppend, strDataAppend]
    simp
  rw [timeToMinutes, jsSplit, hdata]
  rw [splitCharAux_sep ':' _ _ _ (fun c hc => (isDigit_ne (hdigA' c hc)).1)]
  rw [splitCharAux_no_sep ':' _ _ (fun c hc => (isDigit_ne (hdigB' c hc)).1)]
  simp only [List.reverse_nil, List.nil_append, List.map_cons, List.map_nil]
  have hjA : jsNumberOfString (String.mk ((padStart2 (natDecimal a)).data)) = some ((a : Nat) : Int) :=
    jsNumber_digits hdigA' hvA
  have hjB : jsNumberOfString (String.mk ((padStart2 (natDecimal b)).data)) = some ((b : Nat) : Int) :=
    jsNumber_digits hdigB' hvB
  rw [hjA, hjB]
  rfl

theorem timeToMinutes_minutesToTime {n : Int} (hn : 0 ≤ n) :
    timeToMinutes (minutesToTime (some n)) = some n := by
  obtain ⟨m, rfl⟩ : ∃ m : Nat, ((m : Nat) : Int) = n := ⟨n.toNat, Int.toNat_of_nonneg hn⟩
  have hfd : Int.fdiv ((m : Nat) : Int) 60 = (((m / 60 : Nat) : Nat) : Int) := by
    cases m with
    | zero => rfl
    | succ k => rfl
  have htm : Int.tmod ((m : Nat) : Int) 60 = (((m % 60 : Nat) : Nat) : Int) := by
    cases m with
    | zero => rfl
    | succ k => rfl
  have hint : ∀ k : Nat, intDecimal ((k : Nat) : Int) = natDecimal k := by
    intro k
    rw [intDecimal, if_neg (not_lt.mpr (Int.natCast_nonneg k))]
    congr 1
  rw [minutesToTime]
  rw [hfd, htm, hint, hint, timeToMinutes_rendered]
  congr 1
  omega

/-! ### Planned-minutes arithmetic -/

theorem planned_foldl_some (ib : Bool) :
    ∀ (l : List ScheduledBlock),
      (∀ b ∈ l, ∃ sb eb : Int, timeToMinutes b.startTime = some sb ∧
        timeToMinutes b.endTime = some eb ∧ sb ≤ eb) →
      ∀ p : Int,
        ∃ q : Int,
          l.foldl
            (fun sum b =>
              jadd (jadd sum (jsub (timeToMinutes b.endTime) (timeToMinutes b.startTime)))
                (some (if ib then (b.bufferMinutes : Int) else 0))) (some p) = some q ∧ p ≤ q := by
  intro l
  induction l with
  | nil => intro h p; exact ⟨p, rfl, le_refl p⟩
  | cons b bs ih =>
    intro h p
    obtain ⟨sb, eb, hsb, heb, hle⟩ := h b (List.mem_cons_self b bs)
    have hbuf : 0 ≤ (if ib then (b.bufferMinutes : Int) else 0) := by
      split
      · exact Int.natCast_nonneg _
      · exact le_refl 0
    have hF : (jadd (jadd (some p) (jsub (timeToMinutes b.endTime) (timeToMinutes b.startTime)))
        (some (if ib then (b.bufferMinutes : Int) else 0))) =
        some (p + (eb - sb) + (if ib then (b.bufferMinutes : Int) else 0)) := by
      rw [hsb, heb]; rfl
    obtain ⟨q, hq, hpq⟩ := ih (fun x hx => h x (List.mem_cons_of_mem b hx))
      (p + (eb - sb) + (if ib then (b.bufferMinutes : Int) else 0))
    refine ⟨q, ?_, ?_⟩
    · rw [List.foldl_cons, hF]; exact hq
    · have : p ≤ p + (eb - sb) + (if ib then (b.bufferMinutes : Int) else 0) := by
        have h1 : 0 ≤ eb - sb := by omega
        linarith
      linarith

theorem planned_some {bs : List ScheduledBlock} (h : ∀ b ∈ bs, blockParses b)
    (d : Nat) (ib : Bool) :
    ∃ q : Int, getPlannedMinutesForDay bs d ib = some q ∧ 0 ≤ q := by
  unfold getPlannedMinutesForDay
  obtain ⟨q, hq, hpq⟩ := planned_foldl_some ib (bs.filter (isCountedOn d))
    (fun b hb => by
      obtain ⟨sb, eb, h1, h2, -, h4⟩ := h b (List.mem_filter.mp hb).1
      exact ⟨sb, eb, h1, h2, h4⟩) 0
  exact ⟨q, hq, hpq⟩

theorem planned_append (bs : List ScheduledBlock) (b : ScheduledBlock) (d : Nat) (ib : Bool) :
    getPlannedMinutesForDay (bs ++ [b]) d ib =
      if isCountedOn d b then
        jadd (jadd (getPlannedMinutesForDay bs d ib)
          (jsub (timeToMinutes b.endTime) (timeToMinutes b.startTime)))
          (some (if ib then (b.bufferMinutes : Int) else 0))
      else getPlannedMinutesForDay bs d ib := by
  unfold getPlannedMinutesForDay
  rw [List.filter_append, List.foldl_append]
  by_cases hc : isCountedOn d b = true
  · rw [if_pos hc]
    simp [List.filter_cons, hc]
  · rw [if_neg hc]
    simp [List.filter_cons, hc]

theorem planned_append_other {b : ScheduledBlock} {d : Nat} (hbd : b.date ≠ d)
    (bs : List ScheduledBlock) (ib : Bool) :
    getPlannedMinutesForDay (bs ++ [b]) d ib = getPlannedMinutesForDay bs d ib := by
  rw [planned_append, if_neg]
  simp [isCountedOn, hbd]

theorem blockTimed_parses {tasks : List Task} {cap : CapacitySettings} {b : ScheduledBlock}
    (h : blockTimed tasks cap b) : blockParses b := by
  obtain ⟨sb, eb, h1, h2, h3, h4, -⟩ := h
  exact ⟨sb, eb, h1, h2, h3, h4⟩

/-! ### Timing invariant of the allocator output (C1, C9) -/

theorem pass1Step_timed {tasks : List Task} {cap : CapacitySettings} {dd : List Nat}
    {ids : Nat → String} {acc : List ScheduledBlock × Nat} {t : Task} {ws : Int}
    (hwS : timeToMinutes cap.workStart = some ws) (h0 : 0 ≤ ws)
    (ht : t ∈ tasks)
    (hdue : ∀ u, t.dueTime = some u → ∃ v : Int, timeToMinutes u = some v ∧ 0 ≤ v)
    (hacc : ∀ b ∈ acc.1, blockTimed tasks cap b) :
    ∀ b ∈ (pass1Step cap dd ids acc t).1, blockTimed tasks cap b := by
  intro b hb
  simp only [pass1Step] at hb
  split at hb
  · exact hacc b hb
  · rcases List.mem_append.mp hb with h | h
    · exact hacc b h
    · rw [List.mem_singleton.mp h]
      obtain ⟨v, hv, hv0⟩ :
          ∃ v : Int, timeToMinutes (t.dueTime.getD cap.workStart) = some v ∧ 0 ≤ v := by
        cases hdt : t.dueTime with
        | none => exact ⟨ws, by simpa using hwS, h0⟩
        | some u => simpa using hdue u hdt
      have hend : timeToMinutes (minutesToTime (jadd (timeToMinutes (t.dueTime.getD cap.workStart))
          (some ((bufferedMins t.estimatedMinutes : Int) + (bufferMins cap t.estimatedMinutes : Int))))) =
          some (v + ((bufferedMins t.estimatedMinutes : Int) + (bufferMins cap t.estimatedMinutes : Int))) := by
        rw [hv]
        show timeToMinutes (minutesToTime (some _)) = _
        exact timeToMinutes_minutesToTime (by
          have h1 : (0 : Int) ≤ (bufferedMins t.estimatedMinutes : Int) := Int.natCast_nonneg _
          have h2 : (0 : Int) ≤ (bufferMins cap t.estimatedMinutes : Int) := Int.natCast_nonneg _
          omega)
      refine ⟨v, v + ((bufferedMins t.estimatedMinutes : Int) + (bufferMins cap t.estimatedMinutes : Int)),
        hv, hend, hv0, by
          have h1 : (0 : Int) ≤ (bufferedMins t.estimatedMinutes : Int) := Int.natCast_nonneg _
          have h2 : (0 : Int) ≤ (bufferMins cap t.estimatedMinutes : Int) := Int.natCast_nonneg _
          omega, rfl, ?_, ?_⟩
      · intro h4; simp at h4
      · intro _
        refine ⟨t, ht, rfl, ?_⟩
        simp only [taskSpan]
        push_cast
        ring

theorem pass2Step_timed {tasks : List Task} {cap : CapacitySettings} {dd : List Nat}
    {wS wE : JsNum} {ids : Nat → String} {acc : List ScheduledBlock × Nat} {t : Task}
    {ws we : Int}
    (hwS : wS = some ws) (hwE : wE = some we) (h0 : 0 ≤ ws)
    (ht : t ∈ tasks) (hspan : (taskSpan cap t : Int) ≤ we - ws)
    (hacc : ∀ b ∈ acc.1, blockTimed tasks cap b) :
    ∀ b ∈ (pass2Step cap dd wS wE ids acc t).1, blockTimed tasks cap b := by
  intro b hb
  rcases hdl : t.deadline with _ | date
  · simp only [pass2Step, hdl] at hb
    exact hacc b hb
  · simp only [pass2Step, hdl] at hb
    split at hb
    · exact hacc b hb
    · split at hb
      · exact hacc b hb
      · rcases List.mem_append.mp hb with h | h
        · exact hacc b h
        · rw [List.mem_singleton.mp h]
          obtain ⟨p, hp, hp0⟩ :=
            planned_some (fun x hx => blockTimed_parses (hacc x hx)) date true
          have hspan2 : ((bufferedMins t.estimatedMinutes : Int) + (bufferMins cap t.estimatedMinutes : Int))
              ≤ we - ws := by
            refine le_trans ?_ hspan
            simp only [taskSpan]
            push_cast
            exact le_refl _
          have hmin0 : 0 ≤ min p (we - ws - ((bufferedMins t.estimatedMinutes : Int) +
              (bufferMins cap t.estimatedMinutes : Int))) := by
            apply le_min hp0
            omega
          have hstart : jadd wS (jmin (getPlannedMinutesForDay acc.1 date true)
              (jsub (jsub wE wS) (some ((bufferedMins t.estimatedMinutes : Int) +
                (bufferMins cap t.estimatedMinutes : Int))))) =
              some (ws + min p (we - ws - ((bufferedMins t.estimatedMinutes : Int) +
                (bufferMins cap t.estimatedMinutes : Int)))) := by
            rw [hp, hwS, hwE]; rfl
          have hS0 : 0 ≤ ws + min p (we - ws - ((bufferedMins t.estimatedMinutes : Int) +
              (bufferMins cap t.estimatedMinutes : Int))) := by omega
          refine ⟨ws + min p (we - ws - ((bufferedMins t.estimatedMinutes : Int) +
              (bufferMins cap t.estimatedMinutes : Int))),
            ws + min p (we - ws - ((bufferedMins t.estimatedMinutes : Int) +
              (bufferMins cap t.estimatedMinutes : Int))) +
              ((bufferedMins t.estimatedMinutes : Int) + (bufferMins cap t.estimatedMinutes : Int)),
            ?_, ?_, hS0, by
              have h1 : (0 : Int) ≤ (bufferedMins t.estimatedMinutes : Int) := Int.natCast_nonneg _
              have h2 : (0 : Int) ≤ (bufferMins cap t.estimatedMinutes : Int) := Int.natCast_nonneg _
              omega, rfl, ?_, ?_⟩
          · show timeToMinutes (minutesToTime _) = _
            rw [hstart]
            exact timeToMinutes_minutesToTime hS0
          · show timeToMinutes (minutesToTime _) = _
            rw [hstart]
            show timeToMinutes (minutesToTime (some _)) = _
            exact timeToMinutes_minutesToTime (by
              have h1 : (0 : Int) ≤ (bufferedMins t.estimatedMinutes : Int) := Int.natCast_nonneg _
              have h2 : (0 : Int) ≤ (bufferMins cap t.estimatedMinutes : Int) := Int.natCast_nonneg _
              omega)
          · intro h4; simp at h4
          · intro _
            refine ⟨t, ht, rfl, ?_⟩
            simp only [taskSpan]
            push_cast
            ring

theorem pass3DateStep_timed {tasks : List Task} {cap : CapacitySettings} {goalTasks : List Task}
    {quota : Nat} {wS wE : JsNum} {ids : Nat → String} {acc : Pass3Acc} {d : Nat} {ws we : Int}
    (hwS : wS = some ws) (hwE : wE = some we) (h0 : 0 ≤ ws)
    (hg : ∀ t ∈ goalTasks, t ∈ tasks)
    (hspanAll : ∀ t ∈ tasks, (taskSpan cap t : Int) ≤ we - ws)
    (hacc : ∀ b ∈ acc.1, blockTimed tasks cap b) :
    ∀ b ∈ (pass3DateStep cap goalTasks quota wS wE ids acc d).1, blockTimed tasks cap b := by
  intro b hb
  simp only [pass3DateStep] at hb
  split at hb
  · exact hacc b hb
  · split at hb
    · exact hacc b hb
    · split at hb
      · exact hacc b hb
      · rename_i task htask
        split at hb
        · exact hacc b hb
        · rcases List.mem_append.mp hb with h | h
          · exact hacc b h
          · rw [List.mem_singleton.mp h]
            have ht : task ∈ tasks := hg task (mem_of_taskChoice htask)
            have hspan := hspanAll task ht
            obtain ⟨p, hp, hp0⟩ :=
              planned_some (fun x hx => blockTimed_parses (hacc x hx)) d true
            have hspan2 : ((bufferedMins task.estimatedMinutes : Int) +
                (bufferMins cap task.estimatedMinutes : Int)) ≤ we - ws := by
              refine le_trans ?_ hspan
              simp only [taskSpan]
              push_cast
              exact le_refl _
            have hmin0 : 0 ≤ min p (we - ws - ((bufferedMins task.estimatedMinutes : Int) +
                (bufferMins cap task.estimatedMinutes : Int))) := by
              apply le_min hp0
              omega
            have hstart : jadd wS (jmin (getPlannedMinutesForDay acc.1 d true)
                (jsub (jsub wE wS) (some ((bufferedMins task.estimatedMinutes : Int) +
                  (bufferMins cap task.estimatedMinutes : Int))))) =
                some (ws + min p (we - ws - ((bufferedMins task.estimatedMinutes : Int) +
                  (bufferMins cap task.estimatedMinutes : Int)))) := by
              rw [hp, hwS, hwE]; rfl
            have hS0 : 0 ≤ ws + min p (we - ws - ((bufferedMins task.estimatedMinutes : Int) +
                (bufferMins cap task.estimatedMinutes : Int))) := by omega
            refine ⟨ws + min p (we - ws - ((bufferedMins task.estimatedMinutes : Int) +
                (bufferMins cap task.estimatedMinutes : Int))),
              ws + min p (we - ws - ((bufferedMins task.estimatedMinutes : Int) +
                (bufferMins cap task.estimatedMinutes : Int))) +
                ((bufferedMins task.estimatedMinutes : Int) + (bufferMins cap task.estimatedMinutes : Int)),
              ?_, ?_, hS0, by
                have h1 : (0 : Int) ≤ (bufferedMins task.estimatedMinutes : Int) := Int.natCast_nonneg _
                have h2 : (0 : Int) ≤ (bufferMins cap task.estimatedMinutes : Int) := Int.natCast_nonneg _
                omega, rfl, ?_, ?_⟩
            · show timeToMinutes (minutesToTime _) = _
              rw [hstart]
              exact timeToMinutes_minutesToTime hS0
            · show timeToMinutes (minutesToTime _) = _
              rw [hstart]
              show timeToMinutes (minutesToTime (some _)) = _
              exact timeToMinutes_minutesToTime (by
                have h1 : (0 : Int) ≤ (bufferedMins task.estimatedMinutes : Int) := Int.natCast_nonneg _
                have h2 : (0 : Int) ≤ (bufferMins cap task.estimatedMinutes : Int) := Int.natCast_nonneg _
                omega)
            · intro h4; simp at h4
            · intro _
              refine ⟨task, ht, rfl, ?_⟩
              simp only [taskSpan]
              push_cast
              ring

theorem pass3GoalStep_timed {tasks : List Task} {cap : CapacitySettings} {dd : List Nat}
    {wS wE : JsNum} {ids : Nat → String} {acc : List ScheduledBlock × List String × Nat}
    {g : Goal} {ws we : Int}
    (hwS : wS = some ws) (hwE : wE = some we) (h0 : 0 ≤ ws)
    (hspanAll : ∀ t ∈ tasks, (taskSpan cap t : Int) ≤ we - ws)
    (hacc : ∀ b ∈ acc.1, blockTimed tasks cap b) :
    ∀ b ∈ (pass3GoalStep cap tasks dd wS wE ids acc g).1, blockTimed tasks cap b := by
  simp only [pass3GoalStep]
  split
  · exact hacc
  · exact foldl_preserve (fun a : Pass3Acc => ∀ b ∈ a.1, blockTimed tasks cap b) _
      (fun a d _ ha =>
        pass3DateStep_timed hwS hwE h0 (fun t ht => (List.mem_filter.mp ht).1) hspanAll ha)
      hacc

theorem pass4Step_timed {tasks : List Task} {cap : CapacitySettings} {micro : List Task}
    {wS wE : JsNum} {ids : Nat → String} {acc : List ScheduledBlock × Nat} {d : Nat} {ws we : Int}
    (hwS : wS = some ws) (hwE : wE = some we) (h0 : 0 ≤ ws) (h20 : 20 ≤ we - ws)
    (hacc : ∀ b ∈ acc.1, blockTimed tasks cap b) :
    ∀ b ∈ (pass4Step cap micro wS wE ids acc d).1, blockTimed tasks cap b := by
  intro b hb
  simp only [pass4Step] at hb
  split at hb
  · exact hacc b hb
  · split at hb
    · exact hacc b hb
    · rcases List.mem_append.mp hb with h | h
      · exact hacc b h
      · rw [List.mem_singleton.mp h]
        obtain ⟨p, hp, hp0⟩ :=
          planned_some (fun x hx => blockTimed_parses (hacc x hx)) d true
        have h205 : (((15 + 5 : Nat) : Nat) : Int) = 20 := by norm_num
        have hmin0 : 0 ≤ min p (we - ws - (((15 + 5 : Nat) : Nat) : Int)) := by
          apply le_min hp0
          omega
        have hstart : jadd wS (jmin (getPlannedMinutesForDay acc.1 d true)
            (jsub (jsub wE wS) (some (((15 + 5 : Nat) : Nat) : Int)))) =
            some (ws + min p (we - ws - (((15 + 5 : Nat) : Nat) : Int))) := by
          rw [hp, hwS, hwE]; rfl
        have hS0 : 0 ≤ ws + min p (we - ws - (((15 + 5 : Nat) : Nat) : Int)) := by omega
        refine ⟨ws + min p (we - ws - (((15 + 5 : Nat) : Nat) : Int)),
          ws + min p (we - ws - (((15 + 5 : Nat) : Nat) : Int)) + (((15 + 5 : Nat) : Nat) : Int),
          ?_, ?_, hS0, by omega, rfl, ?_, ?_⟩
        · show timeToMinutes (minutesToTime _) = _
          rw [hstart]
          exact timeToMinutes_minutesToTime hS0
        · show timeToMinutes (minutesToTime _) = _
          rw [hstart]
          show timeToMinutes (minutesToTime (some _)) = _
          exact timeToMinutes_minutesToTime (by omega)
        · intro _
          refine ⟨by omega, rfl, rfl⟩
        · intro h4; exact absurd rfl h4

theorem blocksAfterPass1_timed (ids : Nat → String) (s : AppState) (w : Nat) {ws we : Int}
    (henv : ValidEnv s ws we) :
    ∀ b ∈ (blocksAfterPass1 ids s w).1, blockTimed s.tasks s.capacity b := by
  obtain ⟨hwS, h0, hwE, h20, hspan, hdue⟩ := henv
  refine foldl_preserve
    (fun a : List ScheduledBlock × Nat => ∀ b ∈ a.1, blockTimed s.tasks s.capacity b) _
    (fun a t ht ha =>
      pass1Step_timed hwS h0 (List.mem_filter.mp ht).1 (hdue t (List.mem_filter.mp ht).1) ha) ?_
  intro b hb
  exact absurd hb (List.not_mem_nil b)

theorem blocksAfterPass2_timed (ids : Nat → String) (s : AppState) (w : Nat) {ws we : Int}
    (henv : ValidEnv s ws we) :
    ∀ b ∈ (blocksAfterPass2 ids s w).1, blockTimed s.tasks s.capacity b := by
  obtain ⟨hwS, h0, hwE, h20, hspan, hdue⟩ := henv
  refine foldl_preserve
    (fun a : List ScheduledBlock × Nat => ∀ b ∈ a.1, blockTimed s.tasks s.capacity b) _
    (fun a t ht ha =>
      pass2Step_timed hwS hwE h0 (List.mem_filter.mp ht).1
        (hspan t (List.mem_filter.mp ht).1) ha)
    (blocksAfterPass1_timed ids s w ⟨hwS, h0, hwE, h20, hspan, hdue⟩)

theorem blocksAfterPass3_timed (ids : Nat → String) (s : AppState) (w : Nat) {ws we : Int}
    (henv : ValidEnv s ws we) :
    ∀ b ∈ (blocksAfterPass3 ids s w).1, blockTimed s.tasks s.capacity b := by
  obtain ⟨hwS, h0, hwE, h20, hspan, hdue⟩ := henv
  refine foldl_preserve
    (fun a : List ScheduledBlock × List String × Nat =>
      ∀ b ∈ a.1, blockTimed s.tasks s.capacity b) _
    (fun a g _ ha => pass3GoalStep_timed hwS hwE h0 hspan ha)
    (blocksAfterPass2_timed ids s w ⟨hwS, h0, hwE, h20, hspan, hdue⟩)

theorem blocksAfterPass4_timed (ids : Nat → String) (s : AppState) (w : Nat) {ws we : Int}
    (henv : ValidEnv s ws we) :
    ∀ b ∈ (blocksAfterPass4 ids s w).1, blockTimed s.tasks s.capacity b := by
  obtain ⟨hwS, h0, hwE, h20, hspan, hdue⟩ := henv
  refine foldl_preserve
    (fun a : List ScheduledBlock × Nat => ∀ b ∈ a.1, blockTimed s.tasks s.capacity b) _
    (fun a d _ ha => pass4Step_timed hwS hwE h0 h20 ha)
    (blocksAfterPass3_timed ids s w ⟨hwS, h0, hwE, h20, hspan, hdue⟩)

theorem run_timed (ids : Nat → String) (s : AppState) (w : Nat) {ws we : Int}
    (henv : ValidEnv s ws we) :
    ∀ b ∈ runWeeklyScheduler ids s w, blockTimed s.tasks s.capacity b := by
  intro b hb
  exact blocksAfterPass4_timed ids s w henv b (mem_stableSortBy.mp hb)

/-- C1 (amended): under a valid configuration (parsing work-window clock
strings, every task fitting the work window once buffered, parseable
dueTimes), every non-micro output block spans exactly
ceil(E times 1.25) + ceil(E times bufferPercent over 100) minutes of its
task: the code applies the fixed 25 percent multiplier AND adds the
percent buffer on top, rather than the single ceil(E times
(1 + bufferPercent/100)) the claim asserts; micro blocks span the fixed
15 + 5 = 20 minutes. -/
theorem c1_buffered_duration (ids : Nat → String) (s : AppState) (w : Nat) (ws we : Int)
    (henv : ValidEnv s ws we) :
    ∀ b ∈ runWeeklyScheduler ids s w,
      (b.sortOrder ≠ 4 → ∃ t ∈ s.tasks, t.id = b.taskId ∧
        blockDuration b = some ((taskSpan s.capacity t : Int))) ∧
      (b.sortOrder = 4 → blockDuration b = some 20) := by
  intro b hb
  obtain ⟨sb, eb, hsb, heb, h0b, hle, hst, h4, hn4⟩ := run_timed ids s w henv b hb
  constructor
  · intro hso
    obtain ⟨t, ht, hid, hspan⟩ := hn4 hso
    refine ⟨t, ht, hid, ?_⟩
    rw [blockDuration, hsb, heb]
    rw [show jsub (some eb) (some sb) = some (eb - sb) from rfl, hspan]
  · intro hso
    obtain ⟨hdur, -, -⟩ := h4 hso
    rw [blockDuration, hsb, heb]
    rw [show jsub (some eb) (some sb) = some (eb - sb) from rfl, hdur]

theorem c1EnvHolds : ValidEnv c1State 540 1020 := by
  refine ⟨by decide, by decide, by decide, by decide, ?_, ?_⟩
  · intro t ht
    have : t = testTask "t1" TaskType.DeadlineTask 60 EnergyType.Light (some 100) none none := by
      simpa [c1State] using ht
    rw [this]
    decide
  · intro t ht u hu
    have : t = testTask "t1" TaskType.DeadlineTask 60 EnergyType.Light (some 100) none none := by
      simpa [c1State] using ht
    rw [this] at hu
    exact absurd hu (by simp [testTask])

/-- Witness for C1: the deadline block produced on c1State runs 90 = 75 +
15 minutes, the doubly-buffered span of its 60-minute task. -/
theorem c1_witness :
    ValidEnv c1State 540 1020 ∧ c10Block ∈ runWeeklyScheduler sampleIds c1State 100 ∧
    (c10Block.sortOrder ≠ 4 → ∃ t ∈ c1State.tasks, t.id = c10Block.taskId ∧
      blockDuration c10Block = some ((taskSpan c1State.capacity t : Int))) :=
  ⟨c1EnvHolds, by decide,
   (c1_buffered_duration sampleIds c1State 100 540 1020 c1EnvHolds c10Block (by decide)).1⟩

/-! ### The micro pass (C9) -/

theorem pass1Step_so {cap : CapacitySettings} {dd : List Nat} {ids : Nat → String}
    {acc : List ScheduledBlock × Nat} {t : Task}
    (hacc : ∀ b ∈ acc.1, b.sortOrder ≠ 4) :
    ∀ b ∈ (pass1Step cap dd ids acc t).1, b.sortOrder ≠ 4 := by
  intro b hb
  simp only [pass1Step] at hb
  split at hb
  · exact hacc b hb
  · rcases List.mem_append.mp hb with h | h
    · exact hacc b h
    · rw [List.mem_singleton.mp h]; simp

theorem pass2Step_so {cap : CapacitySettings} {dd : List Nat} {wS wE : JsNum}
    {ids : Nat → String} {acc : List ScheduledBlock × Nat} {t : Task}
    (hacc : ∀ b ∈ acc.1, b.sortOrder ≠ 4) :
    ∀ b ∈ (pass2Step cap dd wS wE ids acc t).1, b.sortOrder ≠ 4 := by
  intro b hb
  rcases hdl : t.deadline with _ | date
  · simp only [pass2Step, hdl] at hb
    exact hacc b hb
  · simp only [pass2Step, hdl] at hb
    split at hb
    · exact hacc b hb
    · split at hb
      · exact hacc b hb
      · rcases List.mem_append.mp hb with h | h
        · exact hacc b h
        · rw [List.mem_singleton.mp h]; simp

theorem pass3DateStep_so {cap : CapacitySettings} {goalTasks : List Task} {quota : Nat}
    {wS wE : JsNum} {ids : Nat → String} {acc : Pass3Acc} {d : Nat}
    (hacc : ∀ b ∈ acc.1, b.sortOrder ≠ 4) :
    ∀ b ∈ (pass3DateStep cap goalTasks quota wS wE ids acc d).1, b.sortOrder ≠ 4 := by
  intro b hb
  simp only [pass3DateStep] at hb
  split at hb
  · exact hacc b hb
  · split at hb
    · exact hacc b hb
    · split at hb
      · exact hacc b hb
      · split at hb
        · exact hacc b hb
        · rcases List.mem_append.mp hb with h | h
          · exact hacc b h
          · rw [List.mem_singleton.mp h]; simp

theorem pass3GoalStep_so {cap : CapacitySettings} {tasks : List Task} {dd : List Nat}
    {wS wE : JsNum} {ids : Nat → String} {acc : List ScheduledBlock × List String × Nat}
    {g : Goal}
    (hacc : ∀ b ∈ acc.1, b.sortOrder ≠ 4) :
    ∀ b ∈ (pass3GoalStep cap tasks dd wS wE ids acc g).1, b.sortOrder ≠ 4 := by
  simp only [pass3GoalStep]
  split
  · exact hacc
  · exact foldl_preserve (fun a : Pass3Acc => ∀ b ∈ a.1, b.sortOrder ≠ 4) _
      (fun a d _ ha => pass3DateStep_so ha) hacc

theorem blocksAfterPass3_so (ids : Nat → String) (s : AppState) (w : Nat) :
    ∀ b ∈ (blocksAfterPass3 ids s w).1, b.sortOrder ≠ 4 := by
  have h1 : ∀ b ∈ (blocksAfterPass1 ids s w).1, b.sortOrder ≠ 4 := by
    refine foldl_preserve (fun a : List ScheduledBlock × Nat => ∀ b ∈ a.1, b.sortOrder ≠ 4) _
      (fun a t _ ha => pass1Step_so ha) ?_
    intro b hb
    exact absurd hb (List.not_mem_nil b)
  have h2 : ∀ b ∈ (blocksAfterPass2 ids s w).1, b.sortOrder ≠ 4 :=
    foldl_preserve (fun a : List ScheduledBlock × Nat => ∀ b ∈ a.1, b.sortOrder ≠ 4) _
      (fun a t _ ha => pass2Step_so ha) h1
  exact foldl_preserve
    (fun a : List ScheduledBlock × List String × Nat => ∀ b ∈ a.1, b.sortOrder ≠ 4) _
    (fun a g _ ha => pass3GoalStep_so ha) h2

theorem windowDates_nodup (w : Nat) : (windowDates w).Nodup := by
  simp only [windowDates]
  refine List.Nodup.map ?_ (List.nodup_range 7)
  intro a b hab
  have h2 : w + a = w + b := hab
  omega

theorem microPairOK_symm : ∀ {b c : ScheduledBlock}, microPairOK b c → microPairOK c b := by
  intro b c h
  obtain ⟨h1, h2⟩ := h
  refine ⟨fun hc hb => (h1 hb hc).symm, ?_⟩
  intro hor hand
  exact h2 (Or.symm hor) ⟨hand.1.symm, hand.2.symm⟩

theorem pass4_fold_inv (cap : CapacitySettings) (micro : List Task) (wS wE : JsNum)
    (ids : Nat → String) (base : List ScheduledBlock) (ws we : Int)
    (hwS : wS = some ws) (hwE : wE = some we) (h0 : 0 ≤ ws) (h20 : 20 ≤ we - ws) :
    ∀ (ds : List Nat) (acc : List ScheduledBlock × Nat),
      ds.Nodup →
      (∀ b ∈ acc.1, blockParses b) →
      (∀ b ∈ acc.1, b.sortOrder = 4 → microBlockOK micro base cap b ∧ b.date ∉ ds) →
      (∀ d ∈ ds, getPlannedMinutesForDay acc.1 d true = getPlannedMinutesForDay base d true) →
      List.Pairwise microPairOK acc.1 →
      ((∀ b ∈ (ds.foldl (pass4Step cap micro wS wE ids) acc).1, b.sortOrder = 4 →
          microBlockOK micro base cap b) ∧
        List.Pairwise microPairOK (ds.foldl (pass4Step cap micro wS wE ids) acc).1) := by
  intro ds
  induction ds with
  | nil =>
    intro acc _ _ hmic _ hpw
    exact ⟨fun b hb h4 => (hmic b hb h4).1, hpw⟩
  | cons d ds ih =>
    intro acc hnd hparse hmic hplan hpw
    rw [List.foldl_cons]
    have hnd' : ds.Nodup := (List.nodup_cons.mp hnd).2
    have hdnotin : d ∉ ds := (List.nodup_cons.mp hnd).1
    by_cases hguard : (jgeB (getPlannedMinutesForDay acc.1 d true)
        (some ((cap.maxPlannedHoursPerDay : Int) * 60 - 20))) = true
    · have hstep : pass4Step cap micro wS wE ids acc d = acc := by
        simp only [pass4Step, if_pos hguard]
      rw [hstep]
      exact ih acc hnd' hparse
        (fun b hb h4 => ⟨(hmic b hb h4).1,
          fun hin => (hmic b hb h4).2 (List.mem_cons_of_mem d hin)⟩)
        (fun d' hd' => hplan d' (List.mem_cons_of_mem d hd'))
        hpw
    · rcases hfound : micro.find?
          (fun t => !(acc.1.any (fun b => b.taskId == t.id && b.date == d))) with _ | task
      · have hstep : pass4Step cap micro wS wE ids acc d = acc := by
          simp only [pass4Step, if_neg hguard, hfound]
        rw [hstep]
        exact ih acc hnd' hparse
          (fun b hb h4 => ⟨(hmic b hb h4).1,
            fun hin => (hmic b hb h4).2 (List.mem_cons_of_mem d hin)⟩)
          (fun d' hd' => hplan d' (List.mem_cons_of_mem d hd'))
          hpw
      · obtain ⟨p, hp, hp0⟩ := planned_some hparse d true
        have hpred := List.find?_some hfound
        have hnone : ∀ x ∈ acc.1, ¬ (x.taskId = task.id ∧ x.date = d) := by
          intro x hx hand
          have hany : acc.1.any (fun b => b.taskId == task.id && b.date == d) = false := by
            simpa using hpred
          rw [List.any_eq_false] at hany
          have := hany x hx
          simp only [Bool.and_eq_true, beq_iff_eq] at this
          exact this ⟨hand.1, hand.2⟩
        have hlt : p < (cap.maxPlannedHoursPerDay : Int) * 60 - 20 := by
          by_contra hcontra
          apply hguard
          rw [hp]
          simp only [jgeB, decide_eq_true_eq]
          omega
        have hstart : jadd wS (jmin (getPlannedMinutesForDay acc.1 d true)
            (jsub (jsub wE wS) (some (((15 + 5 : Nat) : Nat) : Int)))) =
            some (ws + min p (we - ws - (((15 + 5 : Nat) : Nat) : Int))) := by
          rw [hp, hwS, hwE]; rfl
        have hS0 : 0 ≤ ws + min p (we - ws - (((15 + 5 : Nat) : Nat) : Int)) := by
          have : 0 ≤ min p (we - ws - (((15 + 5 : Nat) : Nat) : Int)) := by
            apply le_min hp0
            omega
          omega
        refine ih (pass4Step cap micro wS wE ids acc d) hnd' ?_ ?_ ?_ ?_
        · -- parses
          intro b hb
          simp only [pass4Step, if_neg hguard, hfound] at hb
          rcases List.mem_append.mp hb with h | h
          · exact hparse b h
          · rw [List.mem_singleton.mp h]
            refine ⟨ws + min p (we - ws - (((15 + 5 : Nat) : Nat) : Int)),
              ws + min p (we - ws - (((15 + 5 : Nat) : Nat) : Int)) + (((15 + 5 : Nat) : Nat) : Int),
              ?_, ?_, hS0, by omega⟩
            · show timeToMinutes (minutesToTime _) = _
              rw [hstart]
              exact timeToMinutes_minutesToTime hS0
            · show timeToMinutes (minutesToTime _) = _
              rw [hstart]
              show timeToMinutes (minutesToTime (some _)) = _
              exact timeToMinutes_minutesToTime (by omega)
        · -- micro facts
          intro b hb h4
          simp only [pass4Step, if_neg hguard, hfound] at hb
          rcases List.mem_append.mp hb with h | h
          · exact ⟨(hmic b h h4).1, fun hin => (hmic b h h4).2 (List.mem_cons_of_mem d hin)⟩
          · rw [List.mem_singleton.mp h]
            constructor
            · constructor
              · exact ⟨task, List.mem_of_find?_eq_some hfound, rfl⟩
              · show jltB (getPlannedMinutesForDay base d true) _ = true
                rw [← hplan d (List.mem_cons_self d ds), hp]
                simp only [jltB, decide_eq_true_eq]
                omega
            · show d ∉ ds
              exact hdnotin
        · -- planned preserved on the remaining dates
          intro d' hd'
          simp only [pass4Step, if_neg hguard, hfound]
          have hne : d ≠ d' := fun hcontra => hdnotin (hcontra ▸ hd')
          rw [planned_append_other (show d ≠ d' from hne) acc.1 true]
          exact hplan d' (List.mem_cons_of_mem d hd')
        · -- pairwise
          simp only [pass4Step, if_neg hguard, hfound]
          rw [List.pairwise_append]
          refine ⟨hpw, List.pairwise_singleton _ _, ?_⟩
          intro a ha n hn
          rw [List.mem_singleton.mp hn]
          constructor
          · intro ha4 _
            show a.date ≠ d
            intro hcontra
            exact (hmic a ha ha4).2 (hcontra ▸ List.mem_cons_self d ds)
          · intro _ hand
            exact hnone a ha ⟨hand.1, hand.2⟩

/-- C9 (amended): under a valid configuration, pass 4 places at most one
micro block per window date, only on dates whose pre-pass-4 planned
minutes were strictly below maxPlannedHoursPerDay times 60 minus 20; the
chosen task is an uncompleted MicroTask estimated at most 15 minutes,
never already placed on that date, and the emitted block always has Light
energy, bufferMinutes 5 and a 20-minute span as read back from its clock
strings (without the validity hypotheses the clock strings of a clamped
block fail to round-trip, as the counterexample shows). -/
theorem c9_micro_blocks (ids : Nat → String) (s : AppState) (w : Nat) (ws we : Int)
    (henv : ValidEnv s ws we) :
    (∀ b ∈ runWeeklyScheduler ids s w, b.sortOrder = 4 →
      (∃ t ∈ s.tasks, t.id = b.taskId ∧ t.taskType = TaskType.MicroTask ∧
        t.completed = false ∧ t.estimatedMinutes ≤ 15) ∧
      jltB (getPlannedMinutesForDay (blocksAfterPass3 ids s w).1 b.date true)
        (some ((s.capacity.maxPlannedHoursPerDay : Int) * 60 - 20)) = true ∧
      blockDuration b = some 20 ∧ b.bufferMinutes = 5 ∧ b.energyType = EnergyType.Light) ∧
    List.Pairwise microPairOK (runWeeklyScheduler ids s w) := by
  obtain ⟨hwS, h0, hwE, h20, hspan, hdue⟩ := henv
  have hbase := blocksAfterPass3_timed ids s w ⟨hwS, h0, hwE, h20, hspan, hdue⟩
  have hso := blocksAfterPass3_so ids s w
  have hfold := pass4_fold_inv s.capacity (s.tasks.filter isMicroTask)
    (timeToMinutes s.capacity.workStart) (timeToMinutes s.capacity.workEnd) ids
    (blocksAfterPass3 ids s w).1 ws we hwS hwE h0 h20
    (windowDates w)
    ((blocksAfterPass3 ids s w).1, (blocksAfterPass3 ids s w).2.2)
    (windowDates_nodup w)
    (fun b hb => blockTimed_parses (hbase b hb))
    (fun b hb h4 => absurd h4 (hso b hb))
    (fun d _ => rfl)
    (List.pairwise_of_forall_mem_list (fun a ha b hb =>
      ⟨fun h4 _ => absurd h4 (hso a ha),
       fun hor _ => Or.elim hor (fun h4 => hso a ha h4) (fun h4 => hso b hb h4)⟩))
  have hres : blocksAfterPass4 ids s w =
      (windowDates w).foldl
        (pass4Step s.capacity (s.tasks.filter isMicroTask)
          (timeToMinutes s.capacity.workStart) (timeToMinutes s.capacity.workEnd) ids)
        ((blocksAfterPass3 ids s w).1, (blocksAfterPass3 ids s w).2.2) := rfl
  constructor
  · intro b hb h4
    have hb4 : b ∈ (blocksAfterPass4 ids s w).1 := mem_stableSortBy.mp hb
    have hmic := hfold.1 b (by rw [hres] at hb4; exact hb4) h4
    obtain ⟨⟨t, htm, hid⟩, hjlt⟩ := hmic
    obtain ⟨htmem, htprop⟩ := List.mem_filter.mp htm
    simp only [isMicroTask, Bool.and_eq_true, Bool.not_eq_true', beq_iff_eq,
      decide_eq_true_eq] at htprop
    obtain ⟨sb, eb, hsb, heb, h0b, hleb, hst, hcl4, -⟩ :=
      blocksAfterPass4_timed ids s w ⟨hwS, h0, hwE, h20, hspan, hdue⟩ b hb4
    obtain ⟨hdur, hbuf, hen⟩ := hcl4 h4
    refine ⟨⟨t, htmem, hid, htprop.1.2, htprop.1.1, htprop.2⟩, hjlt, ?_, hbuf, hen⟩
    rw [blockDuration, hsb, heb]
    rw [show jsub (some eb) (some sb) = some (eb - sb) from rfl, hdur]
  · refine pairwise_stableSortBy (fun {x y} h => microPairOK_symm h) ?_
    rw [hres]
    exact hfold.2

theorem c9EnvHolds : ValidEnv c9wState 540 1020 := by
  refine ⟨by decide, by decide, by decide, by decide, ?_, ?_⟩
  · intro t ht
    have : t = testTask "m1" TaskType.MicroTask 10 EnergyType.Deep none none none := by
      simpa [c9wState] using ht
    rw [this]
    decide
  · intro t ht u hu
    have : t = testTask "m1" TaskType.MicroTask 10 EnergyType.Deep none none none := by
      simpa [c9wState] using ht
    rw [this] at hu
    exact absurd hu (by simp [testTask])

/-- Witness for C9: the micro block placed on the first day of c9wState
satisfies every amended clause. -/
theorem c9_witness :
    ValidEnv c9wState 540 1020 ∧ c9Block ∈ runWeeklyScheduler sampleIds c9wState 100 ∧
    (c9Block.sortOrder = 4 →
      (∃ t ∈ c9wState.tasks, t.id = c9Block.taskId ∧ t.taskType = TaskType.MicroTask ∧
        t.completed = false ∧ t.estimatedMinutes ≤ 15) ∧
      jltB (getPlannedMinutesForDay (blocksAfterPass3 sampleIds c9wState 100).1 c9Block.date true)
        (some ((c9wState.capacity.maxPlannedHoursPerDay : Int) * 60 - 20)) = true ∧
      blockDuration c9Block = some 20 ∧ c9Block.bufferMinutes = 5 ∧
      c9Block.energyType = EnergyType.Light) :=
  ⟨c9EnvHolds, by decide,
   (c9_micro_blocks sampleIds c9wState 100 540 1020 c9EnvHolds).1 c9Block (by decide)⟩

/-! ### No overlap without fixed placements (C3) -/

theorem intervalsDisjoint_symm {b c : ScheduledBlock} (h : intervalsDisjoint b c) :
    intervalsDisjoint c b := by
  intro sc ec sb eb h1 h2 h3 h4
  rcases h sb eb sc ec h3 h4 h1 h2 with hl | hr
  · exact Or.inr hl
  · exact Or.inl hr

theorem stackBound_parses {ws : Int} {acc : List ScheduledBlock} (h0 : 0 ≤ ws)
    (h : stackBound ws acc) : ∀ b ∈ acc, blockParses b := by
  intro b hb
  obtain ⟨sb, eb, pd, h1, h2, h3, h4, -⟩ := h b hb
  exact ⟨sb, eb, h1, h2, le_trans h0 h3, h4⟩

theorem wouldExceed_ok_bound {cap : CapacitySettings} {blocks : List ScheduledBlock}
    {d : Nat} {cand : Int} {energy : EnergyType} {p : Int}
    (hp : getPlannedMinutesForDay blocks d true = some p)
    (hok : (wouldExceedDailyLimits cap blocks d cand energy).ok = true) :
    p + cand ≤ (cap.maxPlannedHoursPerDay : Int) * 60 := by
  unfold wouldExceedDailyLimits at hok
  rw [hp] at hok
  by_cases hgt : jgtB (jadd (some p) (some cand))
      (some ((cap.maxPlannedHoursPerDay : Int) * 60)) = true
  · rw [if_pos hgt] at hok
    exact absurd hok (by simp)
  · simp only [jgtB, jadd, decide_eq_true_eq] at hgt
    omega

theorem stack_append {ws : Int} {acc : List ScheduledBlock} {n : ScheduledBlock} {p span : Int}
    (hstack : stackBound ws acc) (hpw : List.Pairwise dateDisjoint acc)
    (hp : getPlannedMinutesForDay acc n.date true = some p) (hp0 : 0 ≤ p)
    (hspan0 : 0 ≤ span)
    (hsb : timeToMinutes n.startTime = some (ws + p))
    (heb : timeToMinutes n.endTime = some (ws + p + span))
    (hstat : n.status = BlockStatus.pending) :
    stackBound ws (acc ++ [n]) ∧ List.Pairwise dateDisjoint (acc ++ [n]) := by
  have hcount : isCountedOn n.date n = true := by
    simp [isCountedOn, hstat]
  have hplannedN : getPlannedMinutesForDay (acc ++ [n]) n.date true =
      some (p + span + (n.bufferMinutes : Int)) := by
    rw [planned_append, if_pos hcount, hp, hsb, heb]
    simp only [jsub, jadd, if_true]
    congr 1
    ring
  constructor
  · intro b hb
    rcases List.mem_append.mp hb with h | h
    · obtain ⟨sb, eb, pd, hsb', heb', hwsb, hsbeb, hst', hpd, hbnd⟩ := hstack b h
      by_cases hdate : b.date = n.date
      · have hpdp : pd = p := by
          rw [hdate] at hpd
          exact Option.some.inj (hpd.symm.trans hp)
        refine ⟨sb, eb, p + span + (n.bufferMinutes : Int), hsb', heb', hwsb, hsbeb, hst', ?_, ?_⟩
        · rw [hdate]
          exact hplannedN
        · have hbufn : (0 : Int) ≤ (n.bufferMinutes : Int) := Int.natCast_nonneg _
          omega
      · have hcount' : isCountedOn b.date n = false := by
          have hne : (n.date == b.date) = false :=
            beq_eq_false_iff_ne.mpr (fun hc => hdate hc.symm)
          simp only [isCountedOn, hne, Bool.false_and]
        refine ⟨sb, eb, pd, hsb', heb', hwsb, hsbeb, hst', ?_, hbnd⟩
        rw [planned_append, hcount']
        simpa using hpd
    · rw [List.mem_singleton.mp h]
      refine ⟨ws + p, ws + p + span, p + span + (n.bufferMinutes : Int),
        hsb, heb, by omega, by omega, hstat, hplannedN, ?_⟩
      have hbufn : (0 : Int) ≤ (n.bufferMinutes : Int) := Int.natCast_nonneg _
      omega
  · rw [List.pairwise_append]
    refine ⟨hpw, List.pairwise_singleton _ _, ?_⟩
    intro a ha x hx
    rw [List.mem_singleton.mp hx]
    intro hdate
    obtain ⟨sa, ea, pda, hsa, hea, hwsa, hsaea, hsta, hpda, hbda⟩ := hstack a ha
    intro s1 e1 s2 e2 hh1 hh2 hh3 hh4
    have hs1 : s1 = sa := (Option.some.inj (hsa.symm.trans hh1)).symm
    have he1 : e1 = ea := (Option.some.inj (hea.symm.trans hh2)).symm
    have hs2 : s2 = ws + p := (Option.some.inj (hsb.symm.trans hh3)).symm
    have hpdap : pda = p := by
      rw [hdate] at hpda
      exact Option.some.inj (hpda.symm.trans hp)
    left
    omega

theorem pass2Step_stack {cap : CapacitySettings} {dd : List Nat} {wS wE : JsNum}
    {ids : Nat → String} {acc : List ScheduledBlock × Nat} {t : Task} {ws we : Int}
    (hwS : wS = some ws) (hwE : wE = some we) (h0 : 0 ≤ ws)
    (hcap : ((cap.maxPlannedHoursPerDay : Int) * 60 ≤ we - ws))
    (hP : stackBound ws acc.1 ∧ List.Pairwise dateDisjoint acc.1) :
    stackBound ws (pass2Step cap dd wS wE ids acc t).1 ∧
      List.Pairwise dateDisjoint (pass2Step cap dd wS wE ids acc t).1 := by
  obtain ⟨hstack, hpw⟩ := hP
  rcases hdl : t.deadline with _ | d
  · simp only [pass2Step, hdl]
    exact ⟨hstack, hpw⟩
  · simp only [pass2Step, hdl]
    split
    · exact ⟨hstack, hpw⟩
    · split
      · exact ⟨hstack, hpw⟩
      · rename_i hok
        obtain ⟨p, hp, hp0⟩ := planned_some (stackBound_parses h0 hstack) d true
        have hok' : (wouldExceedDailyLimits cap acc.1 d
            ((bufferedMins t.estimatedMinutes : Int) + (bufferMins cap t.estimatedMinutes : Int))
            t.energyType).ok = true := by
          simpa using hok
        have hbound := wouldExceed_ok_bound hp hok'
        have hcast1 : (0 : Int) ≤ (bufferedMins t.estimatedMinutes : Int) := Int.natCast_nonneg _
        have hcast2 : (0 : Int) ≤ (bufferMins cap t.estimatedMinutes : Int) := Int.natCast_nonneg _
        have hminp : min p (we - ws - ((bufferedMins t.estimatedMinutes : Int) +
            (bufferMins cap t.estimatedMinutes : Int))) = p := min_eq_left (by omega)
        have hsbv : jadd wS (jmin (getPlannedMinutesForDay acc.1 d true)
            (jsub (jsub wE wS) (some ((bufferedMins t.estimatedMinutes : Int) +
              (bufferMins cap t.estimatedMinutes : Int))))) = some (ws + p) := by
          rw [hp, hwS, hwE]
          show some (ws + min p (we - ws - ((bufferedMins t.estimatedMinutes : Int) +
            (bufferMins cap t.estimatedMinutes : Int)))) = some (ws + p)
          rw [hminp]
        refine stack_append hstack hpw hp hp0
          (show (0 : Int) ≤ (bufferedMins t.estimatedMinutes : Int) +
            (bufferMins cap t.estimatedMinutes : Int) by omega) ?_ ?_ rfl
        · show timeToMinutes (minutesToTime _) = _
          rw [hsbv]
          have hnn : (0 : Int) ≤ ws + p := by omega
          exact timeToMinutes_minutesToTime hnn
        · show timeToMinutes (minutesToTime _) = _
          rw [hsbv]
          show timeToMinutes (minutesToTime (some _)) = _
          have hnn : (0 : Int) ≤ ws + p + ((bufferedMins t.estimatedMinutes : Int) +
              (bufferMins cap t.estimatedMinutes : Int)) := by omega
          exact timeToMinutes_minutesToTime hnn

theorem pass3DateStep_stack {cap : CapacitySettings} {goalTasks : List Task} {quota : Nat}
    {wS wE : JsNum} {ids : Nat → String} {acc : Pass3Acc} {d : Nat} {ws we : Int}
    (hwS : wS = some ws) (hwE : wE = some we) (h0 : 0 ≤ ws)
    (hcap : ((cap.maxPlannedHoursPerDay : Int) * 60 ≤ we - ws))
    (hP : stackBound ws acc.1 ∧ List.Pairwise dateDisjoint acc.1) :
    stackBound ws (pass3DateStep cap goalTasks quota wS wE ids acc d).1 ∧
      List.Pairwise dateDisjoint (pass3DateStep cap goalTasks quota wS wE ids acc d).1 := by
  obtain ⟨hstack, hpw⟩ := hP
  simp only [pass3DateStep]
  split
  · exact ⟨hstack, hpw⟩
  · split
    · exact ⟨hstack, hpw⟩
    · split
      · exact ⟨hstack, hpw⟩
      · rename_i task htask
        split
        · exact ⟨hstack, hpw⟩
        · rename_i hok
          obtain ⟨p, hp, hp0⟩ := planned_some (stackBound_parses h0 hstack) d true
          have hok' : (wouldExceedDailyLimits cap acc.1 d
              ((bufferedMins task.estimatedMinutes : Int) +
                (bufferMins cap task.estimatedMinutes : Int)) task.energyType).ok = true := by
            simpa using hok
          have hbound := wouldExceed_ok_bound hp hok'
          have hcast1 : (0 : Int) ≤ (bufferedMins task.estimatedMinutes : Int) :=
            Int.natCast_nonneg _
          have hcast2 : (0 : Int) ≤ (bufferMins cap task.estimatedMinutes : Int) :=
            Int.natCast_nonneg _
          have hminp : min p (we - ws - ((bufferedMins task.estimatedMinutes : Int) +
              (bufferMins cap task.estimatedMinutes : Int))) = p := min_eq_left (by omega)
          have hsbv : jadd wS (jmin (getPlannedMinutesForDay acc.1 d true)
              (jsub (jsub wE wS) (some ((bufferedMins task.estimatedMinutes : Int) +
                (bufferMins cap task.estimatedMinutes : Int))))) = some (ws + p) := by
            rw [hp, hwS, hwE]
            show some (ws + min p (we - ws - ((bufferedMins task.estimatedMinutes : Int) +
              (bufferMins cap task.estimatedMinutes : Int)))) = some (ws + p)
            rw [hminp]
          refine stack_append hstack hpw hp hp0
            (show (0 : Int) ≤ (bufferedMins task.estimatedMinutes : Int) +
              (bufferMins cap task.estimatedMinutes : Int) by omega) ?_ ?_ rfl
          · show timeToMinutes (minutesToTime _) = _
            rw [hsbv]
            have hnn : (0 : Int) ≤ ws + p := by omega
            exact timeToMinutes_minutesToTime hnn
          · show timeToMinutes (minutesToTime _) = _
            rw [hsbv]
            show timeToMinutes (minutesToTime (some _)) = _
            have hnn : (0 : Int) ≤ ws + p + ((bufferedMins task.estimatedMinutes : Int) +
                (bufferMins cap task.estimatedMinutes : Int)) := by omega
            exact timeToMinutes_minutesToTime hnn

theorem pass3GoalStep_stack {cap : CapacitySettings} {tasks : List Task} {dd : List Nat}
    {wS wE : JsNum} {ids : Nat → String} {acc : List ScheduledBlock × List String × Nat}
    {g : Goal} {ws we : Int}
    (hwS : wS = some ws) (hwE : wE = some we) (h0 : 0 ≤ ws)
    (hcap : ((cap.maxPlannedHoursPerDay : Int) * 60 ≤ we - ws))
    (hP : stackBound ws acc.1 ∧ List.Pairwise dateDisjoint acc.1) :
    stackBound ws (pass3GoalStep cap tasks dd wS wE ids acc g).1 ∧
      List.Pairwise dateDisjoint (pass3GoalStep cap tasks dd wS wE ids acc g).1 := by
  simp only [pass3GoalStep]
  split
  · exact hP
  · exact foldl_preserve
      (fun a : Pass3Acc => stackBound ws a.1 ∧ List.Pairwise dateDisjoint a.1) _
      (fun a d _ ha => pass3DateStep_stack hwS hwE h0 hcap ha) hP

theorem pass4Step_stack {cap : CapacitySettings} {micro : List Task} {wS wE : JsNum}
    {ids : Nat → String} {acc : List ScheduledBlock × Nat} {d : Nat} {ws we : Int}
    (hwS : wS = some ws) (hwE : wE = some we) (h0 : 0 ≤ ws)
    (hcap : ((cap.maxPlannedHoursPerDay : Int) * 60 ≤ we - ws))
    (hP : stackBound ws acc.1 ∧ List.Pairwise dateDisjoint acc.1) :
    stackBound ws (pass4Step cap micro wS wE ids acc d).1 ∧
      List.Pairwise dateDisjoint (pass4Step cap micro wS wE ids acc d).1 := by
  obtain ⟨hstack, hpw⟩ := hP
  simp only [pass4Step]
  split
  · exact ⟨hstack, hpw⟩
  · rename_i hguard
    split
    · exact ⟨hstack, hpw⟩
    · rename_i task htask
      obtain ⟨p, hp, hp0⟩ := planned_some (stackBound_parses h0 hstack) d true
      have hlt : p < (cap.maxPlannedHoursPerDay : Int) * 60 - 20 := by
        by_contra hcontra
        apply hguard
        rw [hp]
        simp only [jgeB, decide_eq_true_eq]
        omega
      have hminp : min p (we - ws - (((15 + 5 : Nat) : Nat) : Int)) = p :=
        min_eq_left (by omega)
      have hsbv : jadd wS (jmin (getPlannedMinutesForDay acc.1 d true)
          (jsub (jsub wE wS) (some (((15 + 5 : Nat) : Nat) : Int)))) = some (ws + p) := by
        rw [hp, hwS, hwE]
        show some (ws + min p (we - ws - (((15 + 5 : Nat) : Nat) : Int))) = some (ws + p)
        rw [hminp]
      refine stack_append hstack hpw hp hp0
        (show (0 : Int) ≤ (((15 + 5 : Nat) : Nat) : Int) by omega) ?_ ?_ rfl
      · show timeToMinutes (minutesToTime _) = _
        rw [hsbv]
        have hnn : (0 : Int) ≤ ws + p := by omega
        exact timeToMinutes_minutesToTime hnn
      · show timeToMinutes (minutesToTime _) = _
        rw [hsbv]
        show timeToMinutes (minutesToTime (some _)) = _
        have hnn : (0 : Int) ≤ ws + p + (((15 + 5 : Nat) : Nat) : Int) := by omega
        exact timeToMinutes_minutesToTime hnn

theorem blocksAfterPass4_stack (ids : Nat → String) (s : AppState) (w : Nat) {ws we : Int}
    (henv : NoOverlapEnv s ws we) :
    stackBound ws (blocksAfterPass4 ids s w).1 ∧
      List.Pairwise dateDisjoint (blocksAfterPass4 ids s w).1 := by
  obtain ⟨hwS, h0, hwE, hcap, hfix⟩ := henv
  have h1 : blocksAfterPass1 ids s w = ([], 0) := by
    unfold blocksAfterPass1
    rw [hfix]
    rfl
  have hempty : stackBound ws ((blocksAfterPass1 ids s w).1) ∧
      List.Pairwise dateDisjoint ((blocksAfterPass1 ids s w).1) := by
    rw [h1]
    exact ⟨fun b hb => absurd hb (List.not_mem_nil b), List.Pairwise.nil⟩
  have h2 : stackBound ws (blocksAfterPass2 ids s w).1 ∧
      List.Pairwise dateDisjoint (blocksAfterPass2 ids s w).1 :=
    foldl_preserve
      (fun a : List ScheduledBlock × Nat => stackBound ws a.1 ∧ List.Pairwise dateDisjoint a.1) _
      (fun a t _ ha => pass2Step_stack hwS hwE h0 hcap ha) hempty
  have h3 : stackBound ws (blocksAfterPass3 ids s w).1 ∧
      List.Pairwise dateDisjoint (blocksAfterPass3 ids s w).1 :=
    foldl_preserve
      (fun a : List ScheduledBlock × List String × Nat =>
        stackBound ws a.1 ∧ List.Pairwise dateDisjoint a.1) _
      (fun a g _ ha => pass3GoalStep_stack hwS hwE h0 hcap ha) h2
  exact foldl_preserve
    (fun a : List ScheduledBlock × Nat => stackBound ws a.1 ∧ List.Pairwise dateDisjoint a.1) _
    (fun a d _ ha => pass4Step_stack hwS hwE h0 hcap ha) h3

/-- C3 (amended): when the input contains no pass-1 fixed placements (the
documented collision gap: fixed events are placed verbatim with no overlap
check) and the daily cap fits inside the parsed work window, any two
distinct pending or in-progress blocks of one run that share a date have
disjoint [start, end) intervals. -/
theorem c3_no_overlap (ids : Nat → String) (s : AppState) (w : Nat) (ws we : Int)
    (henv : NoOverlapEnv s ws we) :
    List.Pairwise (fun b c => countedStatus b → countedStatus c → b.date = c.date →
      intervalsDisjoint b c) (runWeeklyScheduler ids s w) := by
  have hmain := blocksAfterPass4_stack ids s w henv
  simp only [runWeeklyScheduler]
  refine pairwise_stableSortBy ?_ ?_
  · intro x y h hcy hcx hdate
    exact intervalsDisjoint_symm (h hcx hcy hdate.symm)
  · exact hmain.2.imp (fun {a b} hd _ _ hdate => hd hdate)

/-- Witness for C3: two deadline tasks on the same date under the default
capacity produce a non-overlapping stacked schedule. -/
theorem c3_witness :
    NoOverlapEnv c3wState 540 1020 ∧
    List.Pairwise (fun b c => countedStatus b → countedStatus c → b.date = c.date →
      intervalsDisjoint b c) (runWeeklyScheduler sampleIds c3wState 100) :=
  ⟨⟨by decide, by decide, by decide, by decide, by decide⟩,
   c3_no_overlap sampleIds c3wState 100 540 1020
     ⟨by decide, by decide, by decide, by decide, by decide⟩⟩

/-! ### Determinism up to generated ids (C6) -/

theorem eraseId_fields {b c : ScheduledBlock} (h : eraseId b = eraseId c) :
    b.taskId = c.taskId ∧ b.date = c.date ∧ b.startTime = c.startTime ∧ b.endTime = c.endTime ∧
    b.bufferMinutes = c.bufferMinutes ∧ b.energyType = c.energyType ∧ b.status = c.status ∧
    b.sortOrder = c.sortOrder :=
  ⟨congrArg BlockData.taskId h, congrArg BlockData.date h, congrArg BlockData.startTime h,
   congrArg BlockData.endTime h, congrArg BlockData.bufferMinutes h,
   congrArg BlockData.energyType h, congrArg BlockData.status h,
   congrArg BlockData.sortOrder h⟩

theorem planned_foldl_congr (d : Nat) (ib : Bool) :
    ∀ (x y : List ScheduledBlock), x.map eraseId = y.map eraseId → ∀ init : JsNum,
      (x.filter (isCountedOn d)).foldl
        (fun sum b =>
          jadd (jadd sum (jsub (timeToMinutes b.endTime) (timeToMinutes b.startTime)))
            (some (if ib then (b.bufferMinutes : Int) else 0))) init =
      (y.filter (isCountedOn d)).foldl
        (fun sum b =>
          jadd (jadd sum (jsub (timeToMinutes b.endTime) (timeToMinutes b.startTime)))
            (some (if ib then (b.bufferMinutes : Int) else 0))) init := by
  intro x
  induction x with
  | nil =>
    intro y h init
    have hy : y = [] := by
      cases y with
      | nil => rfl
      | cons c ys => simp at h
    subst hy; rfl
  | cons b xs ih =>
    intro y h init
    cases y with
    | nil => simp at h
    | cons c ys =>
      simp only [List.map_cons, List.cons.injEq] at h
      obtain ⟨hbc, hxs⟩ := h
      obtain ⟨-, hdate, hst, het, hbuf, -, hstat, -⟩ := eraseId_fields hbc
      have hcount : isCountedOn d b = isCountedOn d c := by
        unfold isCountedOn; rw [hdate, hstat]
      rw [List.filter_cons, List.filter_cons, hcount]
      by_cases hc : isCountedOn d c = true
      · rw [if_pos hc, if_pos hc, List.foldl_cons, List.foldl_cons, hst, het, hbuf]
        exact ih ys hxs _
      · rw [if_neg hc, if_neg hc]
        exact ih ys hxs init

theorem planned_congr {x y : List ScheduledBlock} (h : x.map eraseId = y.map eraseId)
    (d : Nat) (ib : Bool) :
    getPlannedMinutesForDay x d ib = getPlannedMinutesForDay y d ib := by
  unfold getPlannedMinutesForDay
  exact planned_foldl_congr d ib x y h (some 0)

theorem deep_congr {x y : List ScheduledBlock} (h : x.map eraseId = y.map eraseId) (d : Nat) :
    getDeepBlockCountForDay x d = getDeepBlockCountForDay y d := by
  unfold getDeepBlockCountForDay
  induction x generalizing y with
  | nil =>
    have hy : y = [] := by
      cases y with
      | nil => rfl
      | cons c ys => simp at h
    subst hy; rfl
  | cons b xs ih =>
    cases y with
    | nil => simp at h
    | cons c ys =>
      simp only [List.map_cons, List.cons.injEq] at h
      obtain ⟨hbc, hxs⟩ := h
      obtain ⟨-, hdate, -, -, -, hen, hstat, -⟩ := eraseId_fields hbc
      rw [List.filter_cons, List.filter_cons]
      have hpred :
          (b.date == d && b.energyType == EnergyType.Deep &&
            (b.status == BlockStatus.pending || b.status == BlockStatus.in_progress)) =
          (c.date == d && c.energyType == EnergyType.Deep &&
            (c.status == BlockStatus.pending || c.status == BlockStatus.in_progress)) := by
        rw [hdate, hen, hstat]
      rw [hpred]
      split
      · simp only [List.length_cons, ih hxs]
      · exact ih hxs

theorem anyTaskDate_congr {x y : List ScheduledBlock} (h : x.map eraseId = y.map eraseId)
    (tid : String) (d : Nat) :
    (x.any (fun b => b.taskId == tid && b.date == d)) =
      (y.any (fun b => b.taskId == tid && b.date == d)) := by
  induction x generalizing y with
  | nil =>
    have hy : y = [] := by
      cases y with
      | nil => rfl
      | cons c ys => simp at h
    subst hy; rfl
  | cons b xs ih =>
    cases y with
    | nil => simp at h
    | cons c ys =>
      simp only [List.map_cons, List.cons.injEq] at h
      obtain ⟨hbc, hxs⟩ := h
      obtain ⟨htid, hdate, -, -, -, -, -, -⟩ := eraseId_fields hbc
      rw [List.any_cons, List.any_cons, htid, hdate, ih hxs]

theorem taskIds_congr {x y : List ScheduledBlock} (h : x.map eraseId = y.map eraseId) :
    x.map (fun b => b.taskId) = y.map (fun b => b.taskId) := by
  have h2 := congrArg (List.map BlockData.taskId) h
  rw [List.map_map, List.map_map] at h2
  exact h2

theorem wouldExceed_congr {x y : List ScheduledBlock} (h : x.map eraseId = y.map eraseId)
    (cap : CapacitySettings) (d : Nat) (cand : Int) (e : EnergyType) :
    wouldExceedDailyLimits cap x d cand e = wouldExceedDailyLimits cap y d cand e := by
  simp only [wouldExceedDailyLimits]
  rw [planned_congr h d true, deep_congr h d]

theorem foldl_rel {α β : Type _} (R : β → β → Prop) (f g : β → α → β)
    (hfg : ∀ a a' x, R a a' → R (f a x) (g a' x)) :
    ∀ (l : List α) (a a' : β), R a a' → R (l.foldl f a) (l.foldl g a') := by
  intro l
  induction l with
  | nil => intro a a' h; simpa using h
  | cons x xs ih =>
    intro a a' h
    rw [List.foldl_cons, List.foldl_cons]
    exact ih (f a x) (g a' x) (hfg a a' x h)

theorem pass1Step_erase {cap : CapacitySettings} {dd : List Nat} {ids ids' : Nat → String}
    {a a' : List ScheduledBlock × Nat} {t : Task}
    (h1 : a.1.map eraseId = a'.1.map eraseId) (h2 : a.2 = a'.2) :
    (pass1Step cap dd ids a t).1.map eraseId = (pass1Step cap dd ids' a' t).1.map eraseId ∧
    (pass1Step cap dd ids a t).2 = (pass1Step cap dd ids' a' t).2 := by
  simp only [pass1Step]
  by_cases hc : (!(dd.contains (t.deadline.getD dd.headI))) = true
  · rw [if_pos hc, if_pos hc]; exact ⟨h1, h2⟩
  · rw [if_neg hc, if_neg hc]
    refine ⟨?_, by simpa using h2⟩
    rw [List.map_append, List.map_append, h1]
    rfl

theorem pass2Step_erase {cap : CapacitySettings} {dd : List Nat} {wS wE : JsNum}
    {ids ids' : Nat → String} {a a' : List ScheduledBlock × Nat} {t : Task}
    (h1 : a.1.map eraseId = a'.1.map eraseId) (h2 : a.2 = a'.2) :
    (pass2Step cap dd wS wE ids a t).1.map eraseId =
      (pass2Step cap dd wS wE ids' a' t).1.map eraseId ∧
    (pass2Step cap dd wS wE ids a t).2 = (pass2Step cap dd wS wE ids' a' t).2 := by
  simp only [pass2Step]
  rcases hdl : t.deadline with _ | d
  · exact ⟨h1, h2⟩
  · dsimp only
    have hw := wouldExceed_congr h1 cap d
      ((bufferedMins t.estimatedMinutes : Int) + (bufferMins cap t.estimatedMinutes : Int))
      t.energyType
    have hp := planned_congr h1 d true
    by_cases hc1 : (!(dd.contains d)) = true
    · rw [if_pos hc1, if_pos hc1]; exact ⟨h1, h2⟩
    · rw [if_neg hc1, if_neg hc1]
      by_cases hc2 :
          (!(wouldExceedDailyLimits cap a.1 d
            ((bufferedMins t.estimatedMinutes : Int) + (bufferMins cap t.estimatedMinutes : Int))
            t.energyType).ok) = true
      · rw [if_pos hc2, if_pos (by rw [← hw]; exact hc2)]
        exact ⟨h1, h2⟩
      · rw [if_neg hc2, if_neg (by rw [← hw]; exact hc2)]
        rw [hp]
        refine ⟨?_, by simpa using h2⟩
        rw [List.map_append, List.map_append, h1]
        rfl

theorem pass3DateStep_erase {cap : CapacitySettings} {goalTasks : List Task} {quota : Nat}
    {wS wE : JsNum} {ids ids' : Nat → String} {a a' : Pass3Acc} {d : Nat}
    (h1 : a.1.map eraseId = a'.1.map eraseId) (h2 : a.2 = a'.2) :
    (pass3DateStep cap goalTasks quota wS wE ids a d).1.map eraseId =
      (pass3DateStep cap goalTasks quota wS wE ids' a' d).1.map eraseId ∧
    (pass3DateStep cap goalTasks quota wS wE ids a d).2 =
      (pass3DateStep cap goalTasks quota wS wE ids' a' d).2 := by
  simp only [pass3DateStep]
  have hdc := deep_congr h1 d
  have hp := planned_congr h1 d true
  have hsess : a.2.2.1 = a'.2.2.1 := by rw [h2]
  have hids : a.2.1 = a'.2.1 := by rw [h2]
  have hk : a.2.2.2 = a'.2.2.2 := by rw [h2]
  by_cases hc0 : (a.2.2.1 ≥ quota)
  · rw [if_pos hc0, if_pos (show a'.2.2.1 ≥ quota from hsess ▸ hc0)]; exact ⟨h1, h2⟩
  · rw [if_neg hc0, if_neg (show ¬ (a'.2.2.1 ≥ quota) from hsess ▸ hc0)]
    rw [← hdc, ← hp]
    by_cases hc1 :
        (jltB (jsub (some ((cap.maxPlannedHoursPerDay : Int) * 60))
          (getPlannedMinutesForDay a.1 d true)) (some 30)) = true
    · rw [if_pos hc1, if_pos hc1]; exact ⟨h1, h2⟩
    · rw [if_neg hc1, if_neg hc1]
      rcases htask :
          ((goalTasks.find? (fun t => t.energyType == EnergyType.Deep &&
              decide (getDeepBlockCountForDay a.1 d < cap.maxDeepBlocksPerDay))).orElse
            (fun _ => goalTasks.find?
              (fun _ => decide (getDeepBlockCountForDay a.1 d < cap.maxDeepBlocksPerDay)))).orElse
            (fun _ => goalTasks.head?) with _ | task
      · rw [htask]; exact ⟨h1, h2⟩
      · rw [htask]
        dsimp only
        have hw := wouldExceed_congr h1 cap d
          ((bufferedMins task.estimatedMinutes : Int) + (bufferMins cap task.estimatedMinutes : Int))
          task.energyType
        rw [← hw]
        by_cases hc2 :
            (!(wouldExceedDailyLimits cap a.1 d
              ((bufferedMins task.estimatedMinutes : Int) +
                (bufferMins cap task.estimatedMinutes : Int)) task.energyType).ok) = true
        · rw [if_pos hc2, if_pos hc2]
          exact ⟨h1, h2⟩
        · rw [if_neg hc2, if_neg hc2]
          constructor
          · rw [List.map_append, List.map_append, h1]
            rfl
          · rw [hids, hsess, hk]

theorem pass3GoalStep_erase {cap : CapacitySettings} {tasks : List Task} {dd : List Nat}
    {wS wE : JsNum} {ids ids' : Nat → String}
    {a a' : List ScheduledBlock × List String × Nat} {g : Goal}
    (h1 : a.1.map eraseId = a'.1.map eraseId) (h2 : a.2 = a'.2) :
    (pass3GoalStep cap tasks dd wS wE ids a g).1.map eraseId =
      (pass3GoalStep cap tasks dd wS wE ids' a' g).1.map eraseId ∧
    (pass3GoalStep cap tasks dd wS wE ids a g).2 =
      (pass3GoalStep cap tasks dd wS wE ids' a' g).2 := by
  simp only [pass3GoalStep]
  have hids : a.2.1 = a'.2.1 := by rw [h2]
  have hk : a.2.2 = a'.2.2 := by rw [h2]
  by_cases hq : goalQuotaSessions g ≤ 0
  · rw [if_pos hq, if_pos hq]; exact ⟨h1, h2⟩
  · rw [if_neg hq, if_neg hq]
    rw [← hids, ← hk]
    have hrel := foldl_rel
      (fun p q : Pass3Acc => p.1.map eraseId = q.1.map eraseId ∧ p.2 = q.2)
      (pass3DateStep cap
        (tasks.filter (fun t =>
          !t.completed && t.taskType == TaskType.GoalTask && t.goalId == some g.id &&
            !(a.2.1.contains t.id))) (goalQuotaSessions g) wS wE ids)
      (pass3DateStep cap
        (tasks.filter (fun t =>
          !t.completed && t.taskType == TaskType.GoalTask && t.goalId == some g.id &&
            !(a.2.1.contains t.id))) (goalQuotaSessions g) wS wE ids')
      (fun p q x hpq => pass3DateStep_erase hpq.1 hpq.2)
      dd (a.1, a.2.1, 0, a.2.2) (a'.1, a.2.1, 0, a.2.2) ⟨h1, rfl⟩
    exact ⟨hrel.1, by rw [hrel.2]⟩

theorem pass4Step_erase {cap : CapacitySettings} {microTasks : List Task} {wS wE : JsNum}
    {ids ids' : Nat → String} {a a' : List ScheduledBlock × Nat} {d : Nat}
    (h1 : a.1.map eraseId = a'.1.map eraseId) (h2 : a.2 = a'.2) :
    (pass4Step cap microTasks wS wE ids a d).1.map eraseId =
      (pass4Step cap microTasks wS wE ids' a' d).1.map eraseId ∧
    (pass4Step cap microTasks wS wE ids a d).2 =
      (pass4Step cap microTasks wS wE ids' a' d).2 := by
  simp only [pass4Step]
  have hp := planned_congr h1 d true
  rw [← hp]
  have hfind :
      microTasks.find? (fun t => !(a'.1.any (fun b => b.taskId == t.id && b.date == d))) =
      microTasks.find? (fun t => !(a.1.any (fun b => b.taskId == t.id && b.date == d))) := by
    congr 1
    funext t
    rw [anyTaskDate_congr h1 t.id d]
  rw [hfind]
  by_cases hc : (jgeB (getPlannedMinutesForDay a.1 d true)
      (some ((cap.maxPlannedHoursPerDay : Int) * 60 - 20))) = true
  · rw [if_pos hc, if_pos hc]; exact ⟨h1, h2⟩
  · rw [if_neg hc, if_neg hc]
    rcases hfound : microTasks.find?
        (fun t => !(a.1.any (fun b => b.taskId == t.id && b.date == d))) with _ | task
    · rw [hfound]; exact ⟨h1, h2⟩
    · rw [hfound]
      rw [hp]
      refine ⟨?_, by simpa using h2⟩
      rw [List.map_append, List.map_append, h1]
      rfl

theorem blocksAfterPass1_erase (ids ids' : Nat → String) (s : AppState) (w : Nat) :
    (blocksAfterPass1 ids s w).1.map eraseId = (blocksAfterPass1 ids' s w).1.map eraseId ∧
    (blocksAfterPass1 ids s w).2 = (blocksAfterPass1 ids' s w).2 := by
  simp only [blocksAfterPass1]
  exact foldl_rel
    (fun p q : List ScheduledBlock × Nat => p.1.map eraseId = q.1.map eraseId ∧ p.2 = q.2)
    (pass1Step s.capacity (windowDates w) ids) (pass1Step s.capacity (windowDates w) ids')
    (fun p q t hpq => pass1Step_erase hpq.1 hpq.2) _ _ _ ⟨rfl, rfl⟩

theorem blocksAfterPass2_erase (ids ids' : Nat → String) (s : AppState) (w : Nat) :
    (blocksAfterPass2 ids s w).1.map eraseId = (blocksAfterPass2 ids' s w).1.map eraseId ∧
    (blocksAfterPass2 ids s w).2 = (blocksAfterPass2 ids' s w).2 := by
  simp only [blocksAfterPass2]
  exact foldl_rel
    (fun p q : List ScheduledBlock × Nat => p.1.map eraseId = q.1.map eraseId ∧ p.2 = q.2)
    (pass2Step s.capacity (windowDates w) (timeToMinutes s.capacity.workStart)
      (timeToMinutes s.capacity.workEnd) ids)
    (pass2Step s.capacity (windowDates w) (timeToMinutes s.capacity.workStart)
      (timeToMinutes s.capacity.workEnd) ids')
    (fun p q t hpq => pass2Step_erase hpq.1 hpq.2) _ _ _ (blocksAfterPass1_erase ids ids' s w)

theorem blocksAfterPass3_erase (ids ids' : Nat → String) (s : AppState) (w : Nat) :
    (blocksAfterPass3 ids s w).1.map eraseId = (blocksAfterPass3 ids' s w).1.map eraseId ∧
    (blocksAfterPass3 ids s w).2 = (blocksAfterPass3 ids' s w).2 := by
  simp only [blocksAfterPass3]
  have hb2 := blocksAfterPass2_erase ids ids' s w
  exact foldl_rel
    (fun p q : List ScheduledBlock × List String × Nat =>
      p.1.map eraseId = q.1.map eraseId ∧ p.2 = q.2)
    (pass3GoalStep s.capacity s.tasks (windowDates w) (timeToMinutes s.capacity.workStart)
      (timeToMinutes s.capacity.workEnd) ids)
    (pass3GoalStep s.capacity s.tasks (windowDates w) (timeToMinutes s.capacity.workStart)
      (timeToMinutes s.capacity.workEnd) ids')
    (fun p q g hpq => pass3GoalStep_erase hpq.1 hpq.2) _ _ _
    ⟨hb2.1, by rw [taskIds_congr hb2.1, hb2.2]⟩

theorem blocksAfterPass4_erase (ids ids' : Nat → String) (s : AppState) (w : Nat) :
    (blocksAfterPass4 ids s w).1.map eraseId = (blocksAfterPass4 ids' s w).1.map eraseId ∧
    (blocksAfterPass4 ids s w).2 = (blocksAfterPass4 ids' s w).2 := by
  simp only [blocksAfterPass4]
  have hb3 := blocksAfterPass3_erase ids ids' s w
  exact foldl_rel
    (fun p q : List ScheduledBlock × Nat => p.1.map eraseId = q.1.map eraseId ∧ p.2 = q.2)
    (pass4Step s.capacity (s.tasks.filter isMicroTask) (timeToMinutes s.capacity.workStart)
      (timeToMinutes s.capacity.workEnd) ids)
    (pass4Step s.capacity (s.tasks.filter isMicroTask) (timeToMinutes s.capacity.workStart)
      (timeToMinutes s.capacity.workEnd) ids')
    (fun p q d hpq => pass4Step_erase hpq.1 hpq.2) _ _ _
    ⟨hb3.1, by rw [hb3.2]⟩

theorem run_erase_eq (ids ids' : Nat → String) (s : AppState) (w : Nat) :
    (runWeeklyScheduler ids s w).map eraseId = (runWeeklyScheduler ids' s w).map eraseId := by
  unfold runWeeklyScheduler
  rw [map_stableSortBy eraseId blockLE blockLEData (fun a b => rfl),
      map_stableSortBy eraseId blockLE blockLEData (fun a b => rfl),
      (blocksAfterPass4_erase ids ids' s w).1]

/-- C6: two runs of the scheduler on identical goals, tasks, capacity and
week start produce identical sequences of (date, taskId, startTime,
endTime, sortOrder) tuples, whatever block-id streams the two runs draw:
the generated ids influence nothing but the id field. -/
theorem c6_deterministic (ids1 ids2 : Nat → String) (s : AppState) (w : Nat) :
    (runWeeklyScheduler ids1 s w).map blockObservation =
      (runWeeklyScheduler ids2 s w).map blockObservation := by
  have h := run_erase_eq ids1 ids2 s w
  have h2 := congrArg
    (List.map (fun d : BlockData => (d.date, d.taskId, d.startTime, d.endTime, d.sortOrder))) h
  rw [List.map_map, List.map_map] at h2
  exact h2

end Planner
